import Mathlib

/-!
Verification of the TeamQuery per-tenant semantic search core.

The Python source (pythonService/app) is shallowly embedded: floats
become exact unnormalized rationals (the Flt type, with a square root
that is exact on the perfect squares every concrete input uses),
dictionaries become association lists that keep insertion order (as
Python dicts do), Python exceptions become Except values with the
partially mutated state returned alongside, the random level drawn by
_select_level is an explicit argument of add_node, and the external
collaborators (nltk sentence segmentation, the relational store) are
function parameters.
-/

namespace TeamQuery

/-- Python floats idealized as exact, unnormalized rationals: an integer
numerator over an integer denominator kept positive by every operation
used. Kept unnormalized so that every arithmetic step is plain integer
arithmetic the kernel can evaluate. -/
structure Flt where
  num : Int
  den : Int
deriving DecidableEq, Repr

instance (n : Nat) : OfNat Flt n := ⟨⟨(n : Int), 1⟩⟩

/-- Float value equality, by cross multiplication (denominators are
positive throughout). -/
def Flt.eqv (a b : Flt) : Bool := a.num * b.den = b.num * a.den

/-- Float strict order, by cross multiplication. -/
def Flt.lt (a b : Flt) : Bool := a.num * b.den < b.num * a.den

/-- Float non-strict order, by cross multiplication. -/
def Flt.le (a b : Flt) : Bool := a.num * b.den ≤ b.num * a.den

instance : Add Flt := ⟨fun a b => ⟨a.num * b.den + b.num * a.den, a.den * b.den⟩⟩
instance : Sub Flt := ⟨fun a b => ⟨a.num * b.den - b.num * a.den, a.den * b.den⟩⟩
instance : Mul Flt := ⟨fun a b => ⟨a.num * b.num, a.den * b.den⟩⟩
instance : Div Flt := ⟨fun a b => ⟨a.num * b.den, a.den * b.num⟩⟩

/-- Python max over floats: the left argument wins ties. -/
def fmax (a b : Flt) : Flt := if Flt.lt a b then b else a

/-- Python min over floats: the left argument wins ties. -/
def fmin (a b : Flt) : Flt := if Flt.lt b a then b else a

/-- Integer square root by bounded ascent; kernel-evaluable and exact on
perfect squares. -/
def sqrtNatGo (n : Nat) : Nat → Nat → Nat
  | 0, acc => acc
  | fuel + 1, acc => if (acc + 1) * (acc + 1) ≤ n then sqrtNatGo n fuel (acc + 1) else acc

/-- Floor integer square root. -/
def sqrtNat (n : Nat) : Nat := sqrtNatGo n n 0

/-- Square root of a float: models the numpy floating point square root;
exact whenever the argument is a square of a rational (every concrete
vector below has a perfect-square norm). -/
def fsqrt (q : Flt) : Flt :=
  if Flt.le q 0 then 0 else ⟨(sqrtNat q.num.toNat : Int), (sqrtNat q.den.toNat : Int)⟩

/-- Dot product of two vectors; mirrors np.dot, which raises ValueError on
mismatched 1-D shapes (modeled as none). -/
def dotQ : List Flt → List Flt → Option Flt
  | [], [] => some 0
  | a :: as, b :: bs => (dotQ as bs).map (fun r => a * b + r)
  | _, _ => none

/-- Sum of squares of a vector (np.dot of a vector with itself). -/
def sumSq : List Flt → Flt
  | [] => 0
  | x :: xs => x * x + sumSq xs

/-- Euclidean norm, np.linalg.norm, under the float model. -/
def normQ (v : List Flt) : Flt := fsqrt (sumSq v)

/-- Scalar metadata values: JSON strings and integers as stored in node
metadata (hnsw_node.py works with open dictionaries; the core permission
and filter paths only ever touch strings, numbers and lists of them). -/
inductive MScalar where
  | s (v : String)
  | i (v : Int)
deriving DecidableEq, Repr

/-- Metadata values: a scalar or a list of scalars (spec design notes:
tagged-value mapping over scalar and list). -/
inductive MValue where
  | sc (v : MScalar)
  | ls (vs : List MScalar)
deriving DecidableEq, Repr

/-- Node metadata: an insertion-ordered dictionary from keys to values. -/
abbrev Metadata := List (String × MValue)

/-- First-match association lookup, the semantics of dict.get for the
unique-key dictionaries produced by JSON parsing. -/
def mlookup {α : Type} : List (String × α) → String → Option α
  | [], _ => none
  | (k, v) :: rest, key => if k = key then some v else mlookup rest key

/-- The permissions sub-structure of a filter:
filters["permissions"] = \x7buserId, userRole, userGroupIds\x7d. -/
structure Permissions where
  userId : Option String
  userRole : Option String
  userGroupIds : List String
deriving DecidableEq, Repr

/-- Operator map for generic filters (a dict filter value); each field
models the presence of the corresponding dollar-key. hnsw_node.py checks
the operators in the fixed order in, gte, lte, ne and applies only the
first present one. -/
structure OpMap where
  inL : Option (List MScalar)
  gte : Option MScalar
  lte : Option MScalar
  ne : Option MScalar
deriving DecidableEq, Repr

/-- A generic filter value: an operator dict, a list (membership test) or
a scalar (equality test). -/
inductive FilterVal where
  | ops (m : OpMap)
  | lst (vs : List MScalar)
  | v (x : MScalar)
deriving DecidableEq, Repr

/-- A parsed filter dictionary: the optional permissions block plus the
remaining generic key filters, in insertion order. -/
structure Filters where
  permissions : Option Permissions
  generic : List (String × FilterVal)
deriving DecidableEq, Repr

/-- Python comparison between metadata values as used by the gte and lte
operators: int against int and str against str; mixed-type or list
comparisons raise TypeError in Python and are never exercised by the
core paths, modeled as false. -/
def mvLt : MValue → MValue → Bool
  | .sc (.i a), .sc (.i b) => a < b
  | .sc (.s a), .sc (.s b) => a < b
  | _, _ => false

/-- GROUP access check of hnsw_node.satisfies_filters: deny when
not doc_group_id (falsy: absent, empty string, zero, empty list) or when
doc_group_id is not one of the caller group ids. Only a nonempty string
can be a member of a list of string group ids. -/
def groupPass (g : Option MValue) (groups : List String) : Bool :=
  match g with
  | some (.sc (.s gid)) => !(gid = "") && groups.contains gid
  | _ => false

/-- RESTRICTED access check: metadata.get of restrictedToUsers defaults to
the empty list, and user_id in restricted_users is an elementwise
equality test; an absent user id matches nothing. -/
def memRestricted (r : Option MValue) (uid : Option String) : Bool :=
  match r, uid with
  | some (.ls vs), some u => vs.contains (.s u)
  | _, _ => false

/-- Permission block of HNSWNode.satisfies_filters (hnsw_node.py lines
108-137): ADMIN bypasses, otherwise dispatch on metadata accessLevel with
deny as the default branch. -/
def permBlockPass (meta : Metadata) (p : Permissions) : Bool :=
  if p.userRole = some "ADMIN" then true
  else
    match mlookup meta "accessLevel" with
    | some (.sc (.s "PUBLIC")) => true
    | some (.sc (.s "GROUP")) => groupPass (mlookup meta "groupId") p.userGroupIds
    | some (.sc (.s "MANAGERS")) =>
        decide (p.userRole = some "MANAGER" ∨ p.userRole = some "ADMIN")
    | some (.sc (.s "ADMINS")) => decide (p.userRole = some "ADMIN")
    | some (.sc (.s "RESTRICTED")) =>
        memRestricted (mlookup meta "restrictedToUsers") p.userId
    | _ => false

/-- Evaluation of an operator map against the node value, in the elif
order of the source: in, then gte, then lte, then ne; an operator dict
with none of the four keys falls through and passes. -/
def evalOpMap (actual : MValue) (m : OpMap) : Bool :=
  match m.inL with
  | some vs => match actual with
      | .sc a => vs.contains a
      | _ => false
  | none =>
    match m.gte with
    | some g => !(mvLt actual (.sc g))
    | none =>
      match m.lte with
      | some l => !(mvLt (.sc l) actual)
      | none =>
        match m.ne with
        | some n => !(decide (actual = .sc n))
        | none => true

/-- Evaluation of one generic filter value against the node value. -/
def evalFilterVal (actual : MValue) : FilterVal → Bool
  | .ops m => evalOpMap actual m
  | .lst vs => match actual with
      | .sc a => vs.contains a
      | _ => false
  | .v x => decide (actual = .sc x)

/-- Generic (non-permission) filter loop of satisfies_filters: a missing
key on the node denies. -/
def genericPass (meta : Metadata) (gs : List (String × FilterVal)) : Bool :=
  gs.all fun kv =>
    match mlookup meta kv.1 with
    | none => false
    | some actual => evalFilterVal actual kv.2

/-- HNSWNode.satisfies_filters: permission block first, then generic
filters; an absent filter dictionary passes. -/
def satisfiesFilters (meta : Metadata) (f : Option Filters) : Bool :=
  match f with
  | none => true
  | some fl =>
    (match fl.permissions with
     | some p => permBlockPass meta p
     | none => true)
    && genericPass meta fl.generic

/-- SearchService.check_permissions (search_service.py lines 265-313):
the defensive second permission check. Note the source line
access_level = node_metadata.get("accessLevel", "PUBLIC")
which defaults a missing access level to PUBLIC, and the final line of
the RESTRICTED branch, return user_id and user_id in restricted_users,
whose Python truthiness makes an empty-string user id deny. -/
def checkPermissions (meta : Metadata) (p : Permissions) : Bool :=
  if p.userRole = some "ADMIN" then true
  else
    let al := (mlookup meta "accessLevel").getD (.sc (.s "PUBLIC"))
    if al = .sc (.s "PUBLIC") then true
    else if al = .sc (.s "GROUP") then groupPass (mlookup meta "groupId") p.userGroupIds
    else if al = .sc (.s "MANAGERS") then
      decide (p.userRole = some "MANAGER" ∨ p.userRole = some "ADMIN")
    else if al = .sc (.s "ADMINS") then false
    else if al = .sc (.s "RESTRICTED") then
      match p.userId with
      | some u => !(u = "") && memRestricted (mlookup meta "restrictedToUsers") (some u)
      | none => false
    else false

/-- The access table exactly as the specification states it (spec 4.1.1):
written from the specification text, to be compared with the predicate
embedded from the source. -/
def permSpecTable (meta : Metadata) (p : Permissions) : Bool :=
  if p.userRole = some "ADMIN" then true
  else
    match mlookup meta "accessLevel" with
    | some (.sc (.s al)) =>
      if al = "PUBLIC" then true
      else if al = "GROUP" then
        match mlookup meta "groupId" with
        | some (.sc (.s g)) => !(g = "") && p.userGroupIds.contains g
        | _ => false
      else if al = "MANAGERS" then
        decide (p.userRole = some "MANAGER" ∨ p.userRole = some "ADMIN")
      else if al = "ADMINS" then decide (p.userRole = some "ADMIN")
      else if al = "RESTRICTED" then
        match mlookup meta "restrictedToUsers", p.userId with
        | some (.ls vs), some u => vs.contains (.s u)
        | _, _ => false
      else false
    | _ => false

/-- C2: the node filter predicate with a sole permissions block agrees with
the access table of the specification: ADMIN passes unconditionally, then
PUBLIC passes, GROUP requires a nonempty groupId among the caller groups,
MANAGERS requires role MANAGER or ADMIN, ADMINS requires ADMIN, RESTRICTED
requires the user id in restrictedToUsers, and an unknown or missing
accessLevel denies. -/
theorem satisfies_filters_matches_access_table (meta : Metadata) (p : Permissions) :
    satisfiesFilters meta (some ⟨some p, []⟩) = permSpecTable meta p := by
  unfold satisfiesFilters genericPass permBlockPass permSpecTable
  simp only [List.all_nil, Bool.and_true]
  by_cases hr : p.userRole = some "ADMIN"
  · simp [hr]
  · simp only [hr, if_false]
    cases h : mlookup meta "accessLevel" with
    | none => rfl
    | some v =>
      cases v with
      | ls vs => rfl
      | sc m =>
        cases m with
        | i n => rfl
        | s al =>
          by_cases h1 : al = "PUBLIC"
          · simp [h1]
          · by_cases h2 : al = "GROUP"
            · subst h2; simp [groupPass]
            · by_cases h3 : al = "MANAGERS"
              · subst h3; simp
              · by_cases h4 : al = "ADMINS"
                · subst h4; simp
                · by_cases h5 : al = "RESTRICTED"
                  · subst h5; simp [memRestricted]
                  · simp only [h1, h2, h3, h4, h5, if_false]
                    split
                    next heq => simp_all
                    next heq => simp_all
                    next heq => simp_all
                    next heq => simp_all
                    next heq => simp_all
                    next => rfl

/-- C6 counterexample: on metadata without an accessLevel key, the
defensive check defaults to PUBLIC and grants, while the index predicate
denies — the two permission checks are not extensionally equal. -/
theorem check_permissions_not_equivalent :
    checkPermissions [] ⟨none, some "MEMBER", []⟩ = true ∧
    satisfiesFilters [] (some ⟨some ⟨none, some "MEMBER", []⟩, []⟩) = false := by
  decide

/-- C6 amended: the defensive check of SearchService.check_permissions
agrees with the permission block of HNSWNode.satisfies_filters whenever
the node metadata carries an accessLevel key and the caller user id is
not the empty string (a missing accessLevel is granted as PUBLIC by the
defensive check but denied by the index predicate, and an empty-string
user id is denied by Python truthiness in the RESTRICTED branch of the
defensive check only). -/
theorem check_permissions_agrees (meta : Metadata) (p : Permissions)
    (hal : (mlookup meta "accessLevel").isSome = true) (hu : p.userId ≠ some "") :
    checkPermissions meta p = satisfiesFilters meta (some ⟨some p, []⟩) := by
  unfold checkPermissions satisfiesFilters genericPass permBlockPass
  simp only [List.all_nil, Bool.and_true]
  by_cases hr : p.userRole = some "ADMIN"
  · simp [hr]
  · simp only [hr, if_false]
    cases h : mlookup meta "accessLevel" with
    | none => rw [h] at hal; simp at hal
    | some v =>
      simp only [Option.getD_some]
      cases v with
      | ls vs => simp
      | sc m =>
        cases m with
        | i n => simp
        | s al =>
          by_cases h1 : al = "PUBLIC"
          · simp [h1]
          · by_cases h2 : al = "GROUP"
            · subst h2; simp
            · by_cases h3 : al = "MANAGERS"
              · subst h3; simp
              · by_cases h4 : al = "ADMINS"
                · subst h4; simp [hr]
                · by_cases h5 : al = "RESTRICTED"
                  · subst h5
                    simp only [MValue.sc.injEq, MScalar.s.injEq]
                    cases hu2 : p.userId with
                    | none => simp [memRestricted]
                    | some u =>
                      have hne : ¬(u = "") := by
                        intro he; exact hu (by rw [hu2, he])
                      simp [hne]
                  · simp only [MValue.sc.injEq, MScalar.s.injEq, h1, h2, h3, h4, h5,
                      if_false]
                    split
                    next heq => simp_all
                    next heq => simp_all
                    next heq => simp_all
                    next heq => simp_all
                    next heq => simp_all
                    next => rfl

/-- A raw search result as produced by SearchService._search_hnsw: the
node-held metadata travels with the result. -/
structure SearchResultS where
  chunk_id : String
  document_id : String
  content : String
  score : Flt
  metadata : Metadata
  source : String
deriving DecidableEq, Repr

/-- The row fetched from the external store for one chunk id by the
enrichment query (content, document title, original file name and the
stored chunk metadata). -/
structure ChunkData where
  content : String
  document_title : String
  original_filename : String
  chunk_metadata : Metadata
deriving DecidableEq, Repr

/-- An enriched result dictionary as assembled by _enrich_results. -/
structure EnrichedResult where
  chunk_id : String
  document_id : String
  content : String
  score : Flt
  metadata : Metadata
  source : String
deriving DecidableEq, Repr

/-- Python dict assignment d[k] = v on an insertion-ordered dictionary:
replace in place when the key exists, else append. -/
def dictInsert : Metadata → String → MValue → Metadata
  | [], k, v => [(k, v)]
  | (k0, v0) :: rest, k, v =>
      if k0 = k then (k0, v) :: rest else (k0, v0) :: dictInsert rest k v

/-- Python double-splat merge of two dictionaries: every entry of extra
is written over base, later keys winning. -/
def mergeMeta (base extra : Metadata) : Metadata :=
  extra.foldl (fun m kv => dictInsert m kv.1 kv.2) base

/-- SearchService._enrich_results (search_service.py lines 228-247): for
each result whose chunk row was fetched, build the merged metadata
\x7b**result.metadata, **chunk_metadata, document_title, original_filename\x7d;
results with no fetched row are skipped. The external store is a
function from chunk id to the fetched row. -/
def enrichResults (results : List SearchResultS) (store : String → Option ChunkData) :
    List EnrichedResult :=
  results.filterMap fun r =>
    match store r.chunk_id with
    | none => none
    | some cd => some
        { chunk_id := r.chunk_id
          document_id := r.document_id
          content := cd.content
          score := r.score
          metadata :=
            dictInsert
              (dictInsert (mergeMeta r.metadata cd.chunk_metadata)
                "document_title" (.sc (.s cd.document_title)))
              "original_filename" (.sc (.s cd.original_filename))
          source := r.source }

/-- A result whose node metadata says RESTRICTED while the stored chunk
row says PUBLIC, used to exercise the enrichment merge. -/
def r0 : SearchResultS :=
  { chunk_id := "c1", document_id := "d1", content := "", score := 1,
    metadata := [("accessLevel", .sc (.s "RESTRICTED"))], source := "hnsw" }

/-- The stored row for chunk c1 carrying a conflicting accessLevel. -/
def cd0 : ChunkData :=
  { content := "body", document_title := "t", original_filename := "f",
    chunk_metadata := [("accessLevel", .sc (.s "PUBLIC"))] }

/-- The external store used by the enrichment counterexample. -/
def store0 : String → Option ChunkData := fun c => if c = "c1" then some cd0 else none

/-- Left-biased choice between two optional values: the combinator used
to state which dictionary wins in the merge lemmas. -/
def optOr (a b : Option MValue) : Option MValue :=
  match a with
  | some v => some v
  | none => b

/-- Key lookup after a dict assignment. -/
theorem mlookup_dictInsert (m : Metadata) (k k' : String) (v : MValue) :
    mlookup (dictInsert m k v) k' = if k = k' then some v else mlookup m k' := by
  induction m with
  | nil =>
    by_cases h : k = k' <;> simp [dictInsert, mlookup, h]
  | cons kv rest ih =>
    obtain ⟨k0, v0⟩ := kv
    by_cases h0 : k0 = k
    · subst h0
      by_cases h : k0 = k' <;> simp [dictInsert, mlookup, h]
    · simp only [dictInsert, h0, if_false]
      by_cases h : k0 = k'
      · subst h
        simp [mlookup, if_neg (Ne.symm h0)]
      · simp [mlookup, h, ih]

/-- Keys absent from a dictionary look up to none. -/
theorem mlookup_eq_none_of_not_mem (m : Metadata) (k : String)
    (h : k ∉ m.map Prod.fst) : mlookup m k = none := by
  induction m with
  | nil => rfl
  | cons kv rest ih =>
    simp only [List.map_cons, List.mem_cons] at h
    push_neg at h
    obtain ⟨h1, h2⟩ := h
    simp [mlookup, Ne.symm h1, ih h2]

/-- Lookup through a double-splat merge: the extra dictionary wins on its
own keys, the base dictionary answers the rest. -/
theorem mlookup_mergeMeta (base extra : Metadata) (k : String)
    (hnd : (extra.map Prod.fst).Nodup) :
    mlookup (mergeMeta base extra) k = optOr (mlookup extra k) (mlookup base k) := by
  induction extra generalizing base with
  | nil => simp [mergeMeta, mlookup, optOr]
  | cons kv rest ih =>
    obtain ⟨k0, v0⟩ := kv
    simp only [List.map_cons, List.nodup_cons] at hnd
    obtain ⟨hk0, hrest⟩ := hnd
    have hstep : mergeMeta base ((k0, v0) :: rest) = mergeMeta (dictInsert base k0 v0) rest := by
      simp [mergeMeta]
    rw [hstep, ih _ hrest]
    by_cases h : k0 = k
    · subst h
      have hn : mlookup rest k0 = none := mlookup_eq_none_of_not_mem _ _ hk0
      simp [mlookup, hn, mlookup_dictInsert, optOr]
    · simp [mlookup, h, mlookup_dictInsert, optOr]

/-- C5 counterexample: the stored accessLevel shadows the index-held one
in the enriched metadata, so a permission key does not remain the value
the index evaluated against. -/
theorem enrich_results_overwrites_permission_key :
    (enrichResults [r0] store0).map (fun e => mlookup e.metadata "accessLevel") =
      [some (.sc (.s "PUBLIC"))] ∧
    mlookup r0.metadata "accessLevel" = some (.sc (.s "RESTRICTED")) := by
  decide

/-- C5 amended: in every enriched result the stored chunk metadata
shadows the index-held metadata for every key it contains — permission
keys included — while keys absent from the stored row keep the
index-held value; document_title and original_filename are written
last. -/
theorem enrich_results_merge (r : SearchResultS) (cd : ChunkData)
    (store : String → Option ChunkData) (k : String)
    (hstore : store r.chunk_id = some cd)
    (hk1 : k ≠ "document_title") (hk2 : k ≠ "original_filename")
    (hnd : (cd.chunk_metadata.map Prod.fst).Nodup) :
    ∀ e ∈ enrichResults [r] store,
      mlookup e.metadata k =
        optOr (mlookup cd.chunk_metadata k) (mlookup r.metadata k) := by
  intro e he
  simp only [enrichResults, List.filterMap_cons, List.filterMap_nil, hstore] at he
  simp only [List.mem_cons, List.not_mem_nil, or_false] at he
  subst he
  simp only
  rw [mlookup_dictInsert, mlookup_dictInsert,
    if_neg (fun h => hk2 h.symm), if_neg (fun h => hk1 h.symm),
    mlookup_mergeMeta _ _ _ hnd]

/-- C5 amended witness: concrete instantiation on the c1 result. -/
theorem enrich_results_merge_witness :
    store0 r0.chunk_id = some cd0 ∧
    (∀ e ∈ enrichResults [r0] store0,
      mlookup e.metadata "accessLevel" =
        optOr (mlookup cd0.chunk_metadata "accessLevel")
          (mlookup r0.metadata "accessLevel")) :=
  ⟨by decide, enrich_results_merge r0 cd0 store0 "accessLevel" (by decide)
    (by decide) (by decide) (by decide)⟩

/-- Python or-with-default, k or d: both None and 0 are falsy. -/
def pyOrDefault (k : Option Int) (d : Int) : Int :=
  match k with
  | none => d
  | some v => if v = 0 then d else v

/-- The k clamp at the top of SearchService.search (line 57):
k = min(k or self.default_k, self.max_k) with default_k 10, max_k 100. -/
def clampK (k : Option Int) : Int := min (pyOrDefault k 10) 100

/-- Python list slice xs[:n] for an int n: a nonnegative n takes a
prefix, a negative n drops the last -n elements. -/
def takePy {α : Type} (n : Int) (xs : List α) : List α :=
  if 0 ≤ n then xs.take n.toNat else xs.take (xs.length - (-n).toNat)

/-- Stable insertion of a result into a list already sorted by score
descending: the element goes after every earlier element with a score at
least as large, the order Python sorted with reverse=True produces. -/
def insertDesc (x : SearchResultS) : List SearchResultS → List SearchResultS
  | [] => [x]
  | y :: ys => if Flt.lt y.score x.score then x :: y :: ys else y :: insertDesc x ys

/-- Stable sort by score descending, results.sort(key=score, reverse=True). -/
def sortDesc : List SearchResultS → List SearchResultS
  | [] => []
  | x :: xs => insertDesc x (sortDesc xs)

/-- Insertion preserves length. -/
theorem length_insertDesc (x : SearchResultS) (xs : List SearchResultS) :
    (insertDesc x xs).length = xs.length + 1 := by
  induction xs with
  | nil => rfl
  | cons y ys ih =>
    simp only [insertDesc]
    split
    · simp
    · simp [ih]

/-- Sorting preserves length. -/
theorem length_sortDesc (xs : List SearchResultS) :
    (sortDesc xs).length = xs.length := by
  induction xs with
  | nil => rfl
  | cons x xs ih => simp [sortDesc, length_insertDesc, ih]

/-- Result shaping of SearchService.search (lines 86-89): sort the raw
results by score descending (stable) and keep the first k after the
clamp. The raw list stands for the list built from _search_hnsw. -/
def serviceSelect (raw : List SearchResultS) (k : Option Int) : List SearchResultS :=
  takePy (clampK k) (sortDesc raw)

/-- C10 counterexample: with a supplied k = 0 the service treats k as
omitted (0 is falsy in Python), clamps to the default 10 and returns a
result, exceeding min(k, 100) = 0. -/
theorem service_k_zero_not_clamped :
    (serviceSelect [r0] (some 0)).length = 1 ∧ min (0 : Int) 100 = 0 := by
  constructor
  · decide
  · decide

/-- C10 amended: an omitted k and a supplied k = 0 both default to 10, so
at most 10 results are returned in those cases; for every supplied
k ≥ 1 the service returns at most min(k, 100) results. -/
theorem service_k_clamp (raw : List SearchResultS) (k : Option Int) :
    ((k = none ∨ k = some 0) → (serviceSelect raw k).length ≤ 10) ∧
    (∀ v : Int, k = some v → 1 ≤ v →
      (serviceSelect raw k).length ≤ (min v 100).toNat) := by
  constructor
  · intro h
    have hck : clampK k = 10 := by
      rcases h with h | h <;> simp [h, clampK, pyOrDefault]
    have hpos : (0 : Int) ≤ 10 := by norm_num
    simp only [serviceSelect, hck, takePy, if_pos hpos]
    calc (List.take (Int.toNat 10) (sortDesc raw)).length ≤ Int.toNat 10 :=
          List.length_take_le _ _
      _ ≤ 10 := by decide
  · intro v hv h1
    subst hv
    have hck : clampK (some v) = min v 100 := by
      have hv0 : ¬(v = 0) := by omega
      simp [clampK, pyOrDefault, hv0]
    have hpos : (0 : Int) ≤ min v 100 := by omega
    simp only [serviceSelect, hck, takePy, if_pos hpos]
    exact List.length_take_le _ _

/-- C10 amended witness: concrete instantiation at k = 5. -/
theorem service_k_clamp_witness :
    ((some (5 : Int) = none ∨ some (5 : Int) = some 0) →
      (serviceSelect [r0] (some 5)).length ≤ 10) ∧
    (∀ v : Int, some (5 : Int) = some v → 1 ≤ v →
      (serviceSelect [r0] (some 5)).length ≤ (min v 100).toNat) :=
  service_k_clamp [r0] (some 5)

/-- C6 amended witness: concrete instantiation on PUBLIC metadata. -/
theorem check_permissions_agrees_witness :
    (mlookup [("accessLevel", MValue.sc (.s "PUBLIC"))] "accessLevel").isSome = true ∧
    (⟨some "u1", some "MEMBER", []⟩ : Permissions).userId ≠ some "" ∧
    checkPermissions [("accessLevel", MValue.sc (.s "PUBLIC"))] ⟨some "u1", some "MEMBER", []⟩ =
      satisfiesFilters [("accessLevel", MValue.sc (.s "PUBLIC"))]
        (some ⟨some ⟨some "u1", some "MEMBER", []⟩, []⟩) :=
  ⟨by decide, by decide,
    check_permissions_agrees _ _ (by decide) (by decide)⟩

/-- Association lookup with Nat keys (node ids and layer numbers);
first-match, the dict semantics used by hnsw_index.py. -/
def nlookup {α : Type} : List (Nat × α) → Nat → Option α
  | [], _ => none
  | (k, v) :: rest, key => if k = key then some v else nlookup rest key

/-- Dict assignment d[k] = v on a Nat-keyed dictionary. -/
def nupdate {α : Type} : List (Nat × α) → Nat → α → List (Nat × α)
  | [], k, v => [(k, v)]
  | (k0, v0) :: rest, k, v =>
      if k0 = k then (k0, v) :: rest else (k0, v0) :: nupdate rest k v

/-- In-place modification of the value at an existing key; used to model
mutating a node object held in self.nodes. A missing key leaves the
dictionary unchanged. -/
def nmodify {α : Type} : List (Nat × α) → Nat → (α → α) → List (Nat × α)
  | [], _, _ => []
  | (k0, v0) :: rest, k, f =>
      if k0 = k then (k0, f v0) :: rest else (k0, v0) :: nmodify rest k f

/-- Python set.add on a set modeled as an insertion-ordered duplicate-free
list. -/
def listAddSet (xs : List Nat) (x : Nat) : List Nat :=
  if xs.contains x then xs else xs ++ [x]

/-- An HNSW node (hnsw_node.py): vector, ids, metadata, soft-delete flag
and per-layer neighbor sets. The uuid4 node id lives as the key in the
index's node dictionary; the per-pair distance cache is semantically
transparent (vectors are never mutated) and is not modeled. -/
structure HNSWNodeS where
  vector : List Flt
  chunk_id : String
  document_id : String
  metadata : Metadata
  max_layer : Nat
  is_deleted : Bool
  connections : List (Nat × List Nat)
deriving DecidableEq, Repr

/-- HNSWNode.__init__: empty neighbor sets on layers 0..max_layer. -/
def mkNode (v : List Flt) (c d : String) (meta : Metadata) (level : Nat) : HNSWNodeS :=
  { vector := v, chunk_id := c, document_id := d, metadata := meta,
    max_layer := level, is_deleted := false,
    connections := (List.range (level + 1)).map (fun i => (i, [])) }

/-- HNSWNode.get_connections: the layer's set, defaulting to empty. -/
def getConnections (n : HNSWNodeS) (layer : Nat) : List Nat :=
  (nlookup n.connections layer).getD []

/-- HNSWNode.add_connection: add only when the layer does not exceed the
node's top layer. -/
def addConnection (n : HNSWNodeS) (layer id : Nat) : HNSWNodeS :=
  if layer ≤ n.max_layer then
    { n with connections := nupdate n.connections layer (listAddSet (getConnections n layer) id) }
  else n

/-- HNSWNode.remove_connection: discard when the layer key exists. -/
def removeConnection (n : HNSWNodeS) (layer id : Nat) : HNSWNodeS :=
  if (nlookup n.connections layer).isSome then
    { n with connections := nupdate n.connections layer ((getConnections n layer).filter (fun x => !(x = id))) }
  else n

/-- Assignment neighbor.connections[lc] = set(new_connections): building
a set from a list drops duplicates. -/
def setConnectionsAt (n : HNSWNodeS) (layer : Nat) (ids : List Nat) : HNSWNodeS :=
  { n with connections := nupdate n.connections layer ids.dedup }

/-- HNSWNode.distance_to_vector: cosine distance 1 - u.v/(|u||v|), 1.0
when either norm is zero; none models the numpy ValueError on mismatched
shapes. -/
def distance_to_vector (n : HNSWNodeS) (q : List Flt) : Option Flt :=
  match dotQ n.vector q with
  | none => none
  | some dp =>
      let ns := normQ n.vector
      let nq := normQ q
      if Flt.eqv ns 0 || Flt.eqv nq 0 then some 1 else some (1 - dp / (ns * nq))

/-- HNSWNode.distance_to: same formula against another node's vector. -/
def distance_to (a b : HNSWNodeS) : Option Flt := distance_to_vector a b.vector

/-- The HNSW index state (hnsw_index.py): node and layer dictionaries,
entry point, top layer, size, parameters. next_id models the uuid4
generator: fresh ids are drawn from a counter. -/
structure HNSWIndexS where
  organization_id : String
  M : Nat
  max_M : Nat
  max_M0 : Nat
  ef_construction : Nat
  nodes : List (Nat × HNSWNodeS)
  layers : List (Nat × List Nat)
  entry_point : Option Nat
  max_layer : Nat
  size : Nat
  next_id : Nat
deriving DecidableEq, Repr

/-- HNSWIndex.__init__ with max_M = M and max_M0 = 2M. -/
def mkIndex (org : String) (M ef : Nat) : HNSWIndexS :=
  { organization_id := org, M := M, max_M := M, max_M0 := 2 * M,
    ef_construction := ef, nodes := [], layers := [], entry_point := none,
    max_layer := 0, size := 0, next_id := 0 }

/-- Mutation of the node object stored under a given id. -/
def updateNodeAt (st : HNSWIndexS) (nid : Nat) (f : HNSWNodeS → HNSWNodeS) : HNSWIndexS :=
  { st with nodes := nmodify st.nodes nid f }

/-- Lexicographic order on (distance, id) heap entries, the tuple order
heapq uses. -/
def tupLt (a b : Flt × Nat) : Bool := Flt.lt a.1 b.1 || (Flt.eqv a.1 b.1 && a.2 < b.2)

/-- Order of the negated entries (-distance, id): what heappop on the
max-heap w removes first. -/
def negLt (a b : Flt × Nat) : Bool := Flt.lt b.1 a.1 || (Flt.eqv a.1 b.1 && a.2 < b.2)

/-- Minimum of a heap under the given strict order; none when empty. -/
def minBy (lt : (Flt × Nat) → (Flt × Nat) → Bool) : List (Flt × Nat) → Option (Flt × Nat)
  | [] => none
  | [x] => some x
  | x :: xs =>
      match minBy lt (xs) with
      | none => some x
      | some m => some (if lt m x then m else x)

/-- heappop of the min-heap of (distance, id) entries. -/
def popMinT (l : List (Flt × Nat)) : Option ((Flt × Nat) × List (Flt × Nat)) :=
  match minBy tupLt l with
  | none => none
  | some m => some (m, l.erase m)

/-- Peek -w[0][0]: the largest distance currently in the max-heap w. -/
def maxDist : List (Flt × Nat) → Flt
  | [] => 0
  | [x] => x.1
  | x :: xs => fmax x.1 (maxDist xs)

/-- heappop of the max-heap w (stored negated in the source): removes an
entry with the largest distance, smallest id among ties. -/
def dropMaxW (l : List (Flt × Nat)) : List (Flt × Nat) :=
  match minBy negLt l with
  | none => l
  | some m => l.erase m

/-- Drain of the max-heap w at the end of _search_layer: pop everything,
then reverse to ascending distance. -/
def drainW : Nat → List (Flt × Nat) → List (Flt × Nat)
  | 0, _ => []
  | fuel + 1, l =>
      match minBy negLt l with
      | none => []
      | some m => m :: drainW fuel (l.erase m)

/-- Error message standing for the numpy ValueError raised by np.dot on
mismatched vector shapes. -/
def dimMsg : String := "ValueError: shapes not aligned"

/-- State of _search_layer: visited set, candidate min-heap, result
max-heap. -/
structure SLState where
  visited : List Nat
  candidates : List (Flt × Nat)
  w : List (Flt × Nat)
deriving DecidableEq, Repr

/-- Seeding of _search_layer: every entry point present in the node map
is pushed to both heaps and marked visited; absent ids are skipped. A
distance failure propagates as the numpy exception. -/
def slSeed (st : HNSWIndexS) (q : List Flt) : List Nat → SLState → Except String SLState
  | [], s => .ok s
  | ep :: rest, s =>
      match nlookup st.nodes ep with
      | none => slSeed st q rest s
      | some node =>
          match distance_to_vector node q with
          | none => .error dimMsg
          | some d =>
              slSeed st q rest
                { visited := s.visited ++ [ep],
                  candidates := s.candidates ++ [(d, ep)],
                  w := s.w ++ [(d, ep)] }

/-- One pass over the popped node's neighbors at the layer: unvisited
known neighbors are measured and pushed when w is not full or they beat
its worst entry, trimming w back to num_closest. -/
def slNeighbors (st : HNSWIndexS) (q : List Flt) (numClosest : Int) :
    List Nat → SLState → Except String SLState
  | [], s => .ok s
  | nb :: rest, s =>
      if s.visited.contains nb then slNeighbors st q numClosest rest s
      else
        match nlookup st.nodes nb with
        | none => slNeighbors st q numClosest rest s
        | some node =>
            match distance_to_vector node q with
            | none => .error dimMsg
            | some d =>
                let s1 := { s with visited := s.visited ++ [nb] }
                if (s1.w.length : Int) < numClosest then
                  slNeighbors st q numClosest rest
                    { s1 with candidates := s1.candidates ++ [(d, nb)],
                              w := s1.w ++ [(d, nb)] }
                else if Flt.lt d (maxDist s1.w) then
                  let w1 := s1.w ++ [(d, nb)]
                  let w2 := if (w1.length : Int) > numClosest then dropMaxW w1 else w1
                  slNeighbors st q numClosest rest
                    { s1 with candidates := s1.candidates ++ [(d, nb)], w := w2 }
                else slNeighbors st q numClosest rest s1

/-- Main loop of _search_layer: pop the closest candidate, stop when it
is worse than the worst kept result, else expand its neighbors. The fuel
bounds the number of pops; it is chosen so it never runs out. -/
def slLoop (st : HNSWIndexS) (q : List Flt) (numClosest : Int) (layer : Nat) :
    Nat → SLState → Except String (List (Flt × Nat))
  | 0, s => .ok s.w
  | fuel + 1, s =>
      match popMinT s.candidates with
      | none => .ok s.w
      | some ((d, cid), rest) =>
          if s.w ≠ [] ∧ Flt.lt (maxDist s.w) d then .ok s.w
          else
            match nlookup st.nodes cid with
            | none => .error "KeyError"
            | some cnode =>
                match slNeighbors st q numClosest (getConnections cnode layer)
                    { s with candidates := rest } with
                | .error e => .error e
                | .ok s1 => slLoop st q numClosest layer fuel s1

/-- HNSWIndex._search_layer (hnsw_index.py lines 69-142): returns the up
to num_closest closest nodes at the layer, best first. The filters
parameter of the source is unused by its body and is omitted. -/
def search_layer (st : HNSWIndexS) (q : List Flt) (entry_points : List Nat)
    (numClosest : Int) (layer : Nat) : Except String (List (Flt × Nat)) :=
  match slSeed st q entry_points ⟨[], [], []⟩ with
  | .error e => .error e
  | .ok s0 =>
      match slLoop st q numClosest layer (entry_points.length + st.nodes.length + 1) s0 with
      | .error e => .error e
      | .ok w => .ok ((drainW w.length w).reverse)

/-- Stable ascending insertion under the heapq tuple order, for
sorted(candidates). -/
def insertTup (x : Flt × Nat) : List (Flt × Nat) → List (Flt × Nat)
  | [] => [x]
  | y :: ys => if tupLt y x then y :: insertTup x ys else x :: y :: ys

/-- Python sorted on (distance, id) tuples. -/
def sortTup (l : List (Flt × Nat)) : List (Flt × Nat) := l.foldr insertTup []

/-- Diversity filter pass of _select_neighbors_heuristic: keep a pending
candidate only when it is closer to the query than to the node just
selected; candidates whose id left the node map are dropped. -/
def snhFilter (st : HNSWIndexS) (bestNode : HNSWNodeS) :
    List (Flt × Nat) → Except String (List (Flt × Nat))
  | [] => .ok []
  | (dist, nid) :: rest =>
      match nlookup st.nodes nid with
      | none => snhFilter st bestNode rest
      | some node =>
          match distance_to bestNode node with
          | none => .error dimMsg
          | some dts =>
              match snhFilter st bestNode rest with
              | .error e => .error e
              | .ok acc => .ok (if Flt.lt dist dts then (dist, nid) :: acc else acc)

/-- Greedy diversity loop of _select_neighbors_heuristic: repeatedly take
the closest remaining candidate and prune the remainder by the diversity
rule. Pruned candidates are discarded, not set aside. -/
def snhLoop (st : HNSWIndexS) (M : Nat) :
    Nat → List Nat → List (Flt × Nat) → Except String (List Nat × List (Flt × Nat))
  | 0, selected, remaining => .ok (selected, remaining)
  | fuel + 1, selected, remaining =>
      if selected.length ≥ M then .ok (selected, remaining)
      else
        match remaining with
        | [] => .ok (selected, [])
        | (_, bid) :: rest =>
            let selected1 := selected ++ [bid]
            if rest.isEmpty then .ok (selected1, [])
            else
              match nlookup st.nodes bid with
              | none => .error "KeyError"
              | some bestNode =>
                  match snhFilter st bestNode rest with
                  | .error e => .error e
                  | .ok newRemaining => snhLoop st M fuel selected1 newRemaining

/-- HNSWIndex._select_neighbors_heuristic (hnsw_index.py lines 144-202).
keep_pruned_connections is accepted by the source and never read; the
final fill loop can only draw from the remaining (unpruned) candidates. -/
def select_neighbors_heuristic (st : HNSWIndexS) (candidates : List (Flt × Nat)) (M : Nat)
    (extend_candidates : Bool := true) (keep_pruned_connections : Bool := true) :
    Except String (List Nat) :=
  if candidates.length ≤ M then .ok (candidates.map (fun x => x.2))
  else if !extend_candidates then .ok (((sortTup candidates).take M).map (fun x => x.2))
  else
    match snhLoop st M (sortTup candidates).length [] (sortTup candidates) with
    | .error e => .error e
    | .ok (selected, remaining) =>
        .ok (selected ++ ((remaining.take (M - selected.length)).map (fun x => x.2)))

/-- Descending layer list: rangeDown hi lo is [hi, hi-1, ..., lo], empty
when hi < lo; Python range(hi, lo-1, -1). -/
def rangeDown (hi lo : Nat) : List Nat :=
  (List.range (hi + 1 - lo)).map (fun i => hi - i)

/-- defaultdict(set) registration self.layers[l].add(node.id) for l in
range(level+1). -/
def addToLayers (layers : List (Nat × List Nat)) (upTo : Nat) (nid : Nat) :
    List (Nat × List Nat) :=
  (List.range (upTo + 1)).foldl
    (fun ls l => nupdate ls l (listAddSet ((nlookup ls l).getD []) nid)) layers

/-- Greedy descent used by insert and search: one closest node per layer,
no filter. Read-only; a distance failure propagates. -/
def descend (st : HNSWIndexS) (q : List Flt) :
    List Nat → List Nat → Except String (List Nat)
  | [], cur => .ok cur
  | lc :: rest, cur =>
      match search_layer st q cur 1 lc with
      | .error e => .error e
      | .ok r => descend st q rest (r.map (fun x => x.2))

/-- Symmetric edge wiring of add_node step 5: for every selected
neighbor still in the map, connect new node and neighbor at the layer. -/
def addEdges (st : HNSWIndexS) (nid lc : Nat) : List Nat → HNSWIndexS
  | [] => st
  | nb :: rest =>
      if (nlookup st.nodes nb).isSome then
        addEdges
          (updateNodeAt (updateNodeAt st nid (fun n => addConnection n lc nb))
            nb (fun n => addConnection n lc nid))
          nid lc rest
      else addEdges st nid lc rest

/-- Distance list over a neighbor's current connections, dropping ids no
longer in the map (the neighbor_candidates list of the prune step). -/
def connCandidates (st : HNSWIndexS) (neighbor : HNSWNodeS) :
    List Nat → Except String (List (Flt × Nat))
  | [] => .ok []
  | cid :: rest =>
      match nlookup st.nodes cid with
      | none => connCandidates st neighbor rest
      | some cnode =>
          match distance_to neighbor cnode with
          | none => .error dimMsg
          | some d =>
              match connCandidates st neighbor rest with
              | .error e => .error e
              | .ok acc => .ok ((d, cid) :: acc)

/-- Removal of the pruned symmetric edges: every old connection not kept
loses its back-edge to the neighbor. -/
def removePruned (nb lc : Nat) (newConns : List Nat) :
    List Nat → HNSWIndexS → HNSWIndexS
  | [], st => st
  | oc :: rest, st =>
      if !(newConns.contains oc) ∧ (nlookup st.nodes oc).isSome then
        removePruned nb lc newConns rest
          (updateNodeAt st oc (fun n => removeConnection n lc nb))
      else removePruned nb lc newConns rest st

/-- Re-addition of back-edges for the kept connections. -/
def addKept (nb lc : Nat) : List Nat → HNSWIndexS → HNSWIndexS
  | [], st => st
  | nc :: rest, st =>
      if (nlookup st.nodes nc).isSome then
        addKept nb lc rest (updateNodeAt st nc (fun n => addConnection n lc nb))
      else addKept nb lc rest st

/-- Degree-bound pruning of add_node step 6 for one selected neighbor:
when its connection count exceeds the layer bound, reselect its
neighbors by the heuristic and rewire symmetrically. The partially
mutated state is returned alongside an error, as Python leaves it. -/
def pruneOne (st : HNSWIndexS) (lc maxConn nb : Nat) :
    (Except String Unit) × HNSWIndexS :=
  match nlookup st.nodes nb with
  | none => (.ok (), st)
  | some neighbor =>
      if (getConnections neighbor lc).length > maxConn then
        match connCandidates st neighbor (getConnections neighbor lc) with
        | .error e => (.error e, st)
        | .ok neighborCandidates =>
            match select_neighbors_heuristic st neighborCandidates maxConn with
            | .error e => (.error e, st)
            | .ok newConns =>
                (.ok (), addKept nb lc newConns
                  (removePruned nb lc newConns (getConnections neighbor lc)
                    (updateNodeAt st nb (fun n => setConnectionsAt n lc newConns))))
      else (.ok (), st)

/-- The prune step over all selected neighbors, threading the state. -/
def pruneAll (lc maxConn : Nat) : List Nat → HNSWIndexS → (Except String Unit) × HNSWIndexS
  | [], st => (.ok (), st)
  | nb :: rest, st =>
      match pruneOne st lc maxConn nb with
      | (.error e, st1) => (.error e, st1)
      | (.ok _, st1) => pruneAll lc maxConn rest st1

/-- The connect phase of add_node (steps 4-6) over the descending layer
list, carrying current_nearest and the mutated state. -/
def connectLayers (v : List Flt) (nid : Nat) :
    List Nat → List Nat → HNSWIndexS → (Except String (List Nat)) × HNSWIndexS
  | [], cur, st => (.ok cur, st)
  | lc :: rest, cur, st =>
      match search_layer st v cur (st.ef_construction : Int) lc with
      | .error e => (.error e, st)
      | .ok candidates =>
          let mlc := if lc = 0 then st.max_M0 else st.max_M
          match select_neighbors_heuristic st candidates mlc with
          | .error e => (.error e, st)
          | .ok selected =>
              let st1 := addEdges st nid lc selected
              match pruneAll lc mlc selected st1 with
              | (.error e, st2) => (.error e, st2)
              | (.ok _, st2) => connectLayers v nid rest selected st2

/-- Lines 230-231 of add_node: the early max_layer raise. Because this
runs before the search loops, the final condition level > max_layer at
line 305 can never hold, so the entry point promotion there is dead. -/
def bumpMaxLayer (st : HNSWIndexS) (level : Nat) : HNSWIndexS :=
  if st.max_layer < level then { st with max_layer := level } else st

/-- HNSWIndex.add_node (hnsw_index.py lines 204-310). The level drawn by
_select_level is an explicit argument; the uuid4 node id is drawn from
the next_id counter. The result pairs the Python return value or raised
exception with the state as the method leaves it (mutations before an
exception persist, as they do on the Python object). Note the source
raises max_layer before searching (line 230), which empties the
top-down range and makes the entry point update at line 305 dead.
registerNode embeds lines 222-231: node construction, registration in
the node and layer dictionaries, and the early max_layer raise;
add_node below continues with lines 233-310. -/
def registerNode (st : HNSWIndexS) (v : List Flt) (chunk doc : String) (meta : Metadata)
    (level : Nat) : HNSWIndexS :=
  bumpMaxLayer
    { st with nodes := nupdate st.nodes st.next_id (mkNode v chunk doc meta level),
              next_id := st.next_id + 1,
              layers := addToLayers st.layers level st.next_id } level

/-- Steps 7 and size increment at the end of add_node: the dead entry
point promotion followed by size += 1. -/
def finishInsert (st4 : HNSWIndexS) (nid level : Nat) : HNSWIndexS :=
  if st4.max_layer < level then
    { st4 with entry_point := some nid, max_layer := level, size := st4.size + 1 }
  else { st4 with size := st4.size + 1 }

def add_node (st : HNSWIndexS) (v : List Flt) (chunk doc : String) (meta : Metadata)
    (level : Nat) : (Except String Nat) × HNSWIndexS :=
  match (registerNode st v chunk doc meta level).entry_point with
  | none =>
      (.ok st.next_id,
        { registerNode st v chunk doc meta level with
            entry_point := some st.next_id,
            size := (registerNode st v chunk doc meta level).size + 1 })
  | some ep =>
      match descend (registerNode st v chunk doc meta level) v
          (rangeDown (registerNode st v chunk doc meta level).max_layer (level + 1)) [ep] with
      | .error e => (.error e, registerNode st v chunk doc meta level)
      | .ok cur =>
          match connectLayers v st.next_id
              (rangeDown (min level (registerNode st v chunk doc meta level).max_layer) 0)
              cur (registerNode st v chunk doc meta level) with
          | (.error e, st4) => (.error e, st4)
          | (.ok _, st4) => (.ok st.next_id, finishInsert st4 st.next_id level)

/-- Python truthiness of the filters dictionary: an absent or empty dict
is falsy. -/
def filtersTruthy : Option Filters → Bool
  | none => false
  | some f => f.permissions.isSome || !f.generic.isEmpty

/-- The effective ef of search: ef defaults to max(ef_construction, k)
and is widened to at least 3k when a truthy filter is present. -/
def searchEfOf (st : HNSWIndexS) (k : Int) (ef : Option Int) (filters : Option Filters) : Int :=
  if filtersTruthy filters then
    max (match ef with | none => max (st.ef_construction : Int) k | some e => e) (k * 3)
  else match ef with | none => max (st.ef_construction : Int) k | some e => e

/-- The post-traversal filter step of search: drop candidates that left
the node map, deleted nodes, and nodes failing the filter (where the
denial may be observed); keep (distance, id, node). -/
def searchFilter (st : HNSWIndexS) (filters : Option Filters)
    (candidates : List (Flt × Nat)) : List (Flt × Nat × HNSWNodeS) :=
  candidates.filterMap (fun dc =>
    match nlookup st.nodes dc.2 with
    | none => none
    | some node =>
        if node.is_deleted then none
        else if filtersTruthy filters ∧ satisfiesFilters node.metadata filters = false then none
        else some (dc.1, dc.2, node))

/-- HNSWIndex.search (hnsw_index.py lines 312-382): greedy descent to
layer 1, a widened layer-0 scan (the filter itself deferred), then the
post-traversal filter step, to at most k results. The fire-and-forget
denial logging task touches no index state and is not modeled. -/
def search (st : HNSWIndexS) (q : List Flt) (k : Int) (ef : Option Int)
    (filters : Option Filters) : Except String (List (Flt × Nat × HNSWNodeS)) :=
  if st.nodes.isEmpty ∨ st.entry_point = none then .ok []
  else
    match st.entry_point with
    | none => .ok []
    | some ep =>
        match descend st q (rangeDown st.max_layer 1) [ep] with
        | .error e => .error e
        | .ok cur =>
            match search_layer st q cur (searchEfOf st k ef filters) 0 with
            | .error e => .error e
            | .ok candidates => .ok (takePy k (searchFilter st filters candidates))

/-- First node with the chunk id marked deleted, the rest untouched;
none when no node carries the chunk id. -/
def markDeletedAux : List (Nat × HNSWNodeS) → String → Option (List (Nat × HNSWNodeS))
  | [], _ => none
  | (k, n) :: rest, c =>
      if n.chunk_id = c then some ((k, { n with is_deleted := true }) :: rest)
      else (markDeletedAux rest c).map (fun r => (k, n) :: r)

/-- HNSWIndex.mark_deleted_by_chunk_id (hnsw_index.py lines 530-542):
soft delete of the first node whose chunk_id matches. -/
def mark_deleted_by_chunk_id (st : HNSWIndexS) (c : String) : Bool × HNSWIndexS :=
  match markDeletedAux st.nodes c with
  | some ns => (true, { st with nodes := ns })
  | none => (false, st)

deriving instance DecidableEq for Except

/-- Lookup after a Nat-keyed dict assignment. -/
theorem nlookup_nupdate {α : Type} (m : List (Nat × α)) (k j : Nat) (v : α) :
    nlookup (nupdate m k v) j = if k = j then some v else nlookup m j := by
  induction m with
  | nil => by_cases h : k = j <;> simp [nupdate, nlookup, h]
  | cons kv rest ih =>
    obtain ⟨k0, v0⟩ := kv
    by_cases h0 : k0 = k
    · subst h0
      by_cases h : k0 = j <;> simp [nupdate, nlookup, h]
    · simp only [nupdate, h0, if_false]
      by_cases h : k0 = j
      · subst h
        simp [nlookup, if_neg (Ne.symm h0)]
      · simp [nlookup, h, ih]

/-- In-place modification leaves the key sequence unchanged. -/
theorem nmodify_map_fst {α : Type} (m : List (Nat × α)) (k : Nat) (f : α → α) :
    (nmodify m k f).map Prod.fst = m.map Prod.fst := by
  induction m with
  | nil => rfl
  | cons kv rest ih =>
    obtain ⟨k0, v0⟩ := kv
    by_cases h : k0 = k <;> simp [nmodify, h, ih]

/-- A key looks up to something exactly when it occurs in the key
sequence. -/
theorem nlookup_isSome_iff {α : Type} (m : List (Nat × α)) (k : Nat) :
    (nlookup m k).isSome = true ↔ k ∈ m.map Prod.fst := by
  induction m with
  | nil => simp [nlookup]
  | cons kv rest ih =>
    obtain ⟨k0, v0⟩ := kv
    by_cases h : k0 = k
    · subst h; simp [nlookup]
    · simp [nlookup, h, ih, Ne.symm h]

/-- State relation of the mutation helpers of add_node: the size and the
node-id sequence are untouched (only connection sets change). -/
def preservesNodes (st st' : HNSWIndexS) : Prop :=
  st'.size = st.size ∧ st'.nodes.map Prod.fst = st.nodes.map Prod.fst

theorem preservesNodes_refl (st : HNSWIndexS) : preservesNodes st st := ⟨rfl, rfl⟩

theorem preservesNodes_trans {a b c : HNSWIndexS}
    (h1 : preservesNodes a b) (h2 : preservesNodes b c) : preservesNodes a c :=
  ⟨h2.1.trans h1.1, h2.2.trans h1.2⟩

theorem updateNodeAt_preserves (st : HNSWIndexS) (nid : Nat) (f : HNSWNodeS → HNSWNodeS) :
    preservesNodes st (updateNodeAt st nid f) :=
  ⟨rfl, nmodify_map_fst _ _ _⟩

theorem addEdges_preserves (nid lc : Nat) :
    ∀ (l : List Nat) (st : HNSWIndexS), preservesNodes st (addEdges st nid lc l) := by
  intro l
  induction l with
  | nil => intro st; exact preservesNodes_refl st
  | cons nb rest ih =>
    intro st
    simp only [addEdges]
    split
    · exact preservesNodes_trans
        (preservesNodes_trans (updateNodeAt_preserves _ _ _) (updateNodeAt_preserves _ _ _))
        (ih _)
    · exact ih st

theorem removePruned_preserves (nb lc : Nat) (newConns : List Nat) :
    ∀ (l : List Nat) (st : HNSWIndexS), preservesNodes st (removePruned nb lc newConns l st) := by
  intro l
  induction l with
  | nil => intro st; exact preservesNodes_refl st
  | cons oc rest ih =>
    intro st
    simp only [removePruned]
    split
    · exact preservesNodes_trans (updateNodeAt_preserves _ _ _) (ih _)
    · exact ih st

theorem addKept_preserves (nb lc : Nat) :
    ∀ (l : List Nat) (st : HNSWIndexS), preservesNodes st (addKept nb lc l st) := by
  intro l
  induction l with
  | nil => intro st; exact preservesNodes_refl st
  | cons nc rest ih =>
    intro st
    simp only [addKept]
    split
    · exact preservesNodes_trans (updateNodeAt_preserves _ _ _) (ih _)
    · exact ih st

theorem pruneOne_preserves (st : HNSWIndexS) (lc maxConn nb : Nat) :
    preservesNodes st (pruneOne st lc maxConn nb).2 := by
  unfold pruneOne
  split
  · exact preservesNodes_refl st
  · split
    · split
      · exact preservesNodes_refl st
      · split
        · exact preservesNodes_refl st
        · exact preservesNodes_trans
            (preservesNodes_trans (updateNodeAt_preserves _ _ _) (removePruned_preserves _ _ _ _ _))
            (addKept_preserves _ _ _ _)
    · exact preservesNodes_refl st

theorem pruneAll_preserves (lc maxConn : Nat) :
    ∀ (l : List Nat) (st : HNSWIndexS), preservesNodes st (pruneAll lc maxConn l st).2 := by
  intro l
  induction l with
  | nil => intro st; exact preservesNodes_refl st
  | cons nb rest ih =>
    intro st
    simp only [pruneAll]
    split
    next e st1 heq =>
      have := pruneOne_preserves st lc maxConn nb
      rw [heq] at this
      exact this
    next u st1 heq =>
      have h1 := pruneOne_preserves st lc maxConn nb
      rw [heq] at h1
      exact preservesNodes_trans h1 (ih _)

theorem connectLayers_preserves (v : List Flt) (nid : Nat) :
    ∀ (ls cur : List Nat) (st : HNSWIndexS),
      preservesNodes st (connectLayers v nid ls cur st).2 := by
  intro ls
  induction ls with
  | nil => intro cur st; exact preservesNodes_refl st
  | cons lc rest ih =>
    intro cur st
    simp only [connectLayers]
    split
    · exact preservesNodes_refl st
    next candidates hcand =>
      split
      · exact preservesNodes_refl st
      next selected hsel =>
        split
        next e st2 heq =>
          have h1 := addEdges_preserves nid lc selected st
          have h2 := pruneAll_preserves lc (if lc = 0 then st.max_M0 else st.max_M)
            selected (addEdges st nid lc selected)
          rw [heq] at h2
          exact preservesNodes_trans h1 h2
        next u st2 heq =>
          have h1 := addEdges_preserves nid lc selected st
          have h2 := pruneAll_preserves lc (if lc = 0 then st.max_M0 else st.max_M)
            selected (addEdges st nid lc selected)
          rw [heq] at h2
          exact preservesNodes_trans (preservesNodes_trans h1 h2) (ih _ _)

/-- Equal key sequences give equal lookup success. -/
theorem nlookup_isSome_eq_of_map_fst_eq {α : Type} (m m2 : List (Nat × α))
    (h : m2.map Prod.fst = m.map Prod.fst) (k : Nat) :
    (nlookup m2 k).isSome = (nlookup m k).isSome := by
  have i1 := nlookup_isSome_iff m k
  have i2 := nlookup_isSome_iff m2 k
  rw [h] at i2
  by_cases hk : k ∈ m.map Prod.fst
  · rw [i2.2 hk, i1.2 hk]
  · have b1 : (nlookup m k).isSome = false := by
      cases hh : (nlookup m k).isSome
      · rfl
      · exact absurd (i1.1 hh) hk
    have b2 : (nlookup m2 k).isSome = false := by
      cases hh : (nlookup m2 k).isSome
      · rfl
      · exact absurd (i2.1 hh) hk
    rw [b1, b2]

theorem bumpMaxLayer_nodes (st : HNSWIndexS) (level : Nat) :
    (bumpMaxLayer st level).nodes = st.nodes := by
  unfold bumpMaxLayer; split <;> rfl

theorem bumpMaxLayer_entry_point (st : HNSWIndexS) (level : Nat) :
    (bumpMaxLayer st level).entry_point = st.entry_point := by
  unfold bumpMaxLayer; split <;> rfl

theorem bumpMaxLayer_size (st : HNSWIndexS) (level : Nat) :
    (bumpMaxLayer st level).size = st.size := by
  unfold bumpMaxLayer; split <;> rfl

/-- Registration leaves the previous nodes in place under their ids. -/
theorem registerNode_nodes (st : HNSWIndexS) (v : List Flt) (chunk doc : String)
    (meta : Metadata) (level : Nat) :
    (registerNode st v chunk doc meta level).nodes =
      nupdate st.nodes st.next_id (mkNode v chunk doc meta level) := by
  unfold registerNode; rw [bumpMaxLayer_nodes]

theorem registerNode_size (st : HNSWIndexS) (v : List Flt) (chunk doc : String)
    (meta : Metadata) (level : Nat) :
    (registerNode st v chunk doc meta level).size = st.size := by
  unfold registerNode; rw [bumpMaxLayer_size]

theorem finishInsert_size (st4 : HNSWIndexS) (nid level : Nat) :
    (finishInsert st4 nid level).size = st4.size + 1 := by
  unfold finishInsert; split <;> rfl

/-- add_node never removes a node: every id that looked up before the
insert still looks up after it, whatever the outcome. -/
theorem add_node_preserves_lookup (st : HNSWIndexS) (v : List Flt) (chunk doc : String)
    (meta : Metadata) (level : Nat) (j : Nat)
    (hj : (nlookup st.nodes j).isSome = true) :
    (nlookup (add_node st v chunk doc meta level).2.nodes j).isSome = true := by
  have hreg : (nlookup (registerNode st v chunk doc meta level).nodes j).isSome = true := by
    rw [registerNode_nodes, nlookup_nupdate]
    split
    · rfl
    · exact hj
  unfold add_node
  split
  next heq => simpa using hreg
  next ep heq =>
    split
    next e heq2 => exact hreg
    next cur heq2 =>
      split
      next e st4 heq3 =>
        have hp := connectLayers_preserves v st.next_id
          (rangeDown (min level (registerNode st v chunk doc meta level).max_layer) 0)
          cur (registerNode st v chunk doc meta level)
        rw [heq3] at hp
        rw [nlookup_isSome_eq_of_map_fst_eq _ _ hp.2 j]
        exact hreg
      next u st4 heq3 =>
        have hp := connectLayers_preserves v st.next_id
          (rangeDown (min level (registerNode st v chunk doc meta level).max_layer) 0)
          cur (registerNode st v chunk doc meta level)
        rw [heq3] at hp
        have hlift : (nlookup st4.nodes j).isSome = true := by
          rw [nlookup_isSome_eq_of_map_fst_eq _ _ hp.2 j]
          exact hreg
        unfold finishInsert
        split
        · simpa using hlift
        · simpa using hlift

/-- A successful add_node increments size by exactly one, also when the
chunk id already names a node. -/
theorem add_node_size_succ (st : HNSWIndexS) (v : List Flt) (chunk doc : String)
    (meta : Metadata) (level : Nat) (nid : Nat)
    (hok : (add_node st v chunk doc meta level).1 = .ok nid) :
    (add_node st v chunk doc meta level).2.size = st.size + 1 := by
  unfold add_node at hok ⊢
  split at hok
  next heq => simp [registerNode_size]
  next ep heq =>
    split at hok
    next e heq2 => exact absurd hok (by simp)
    next cur heq2 =>
      split at hok
      next e st4 heq3 => exact absurd hok (by simp)
      next u st4 heq3 =>
        have hp := connectLayers_preserves v st.next_id
          (rangeDown (min level (registerNode st v chunk doc meta level).max_layer) 0)
          cur (registerNode st v chunk doc meta level)
        rw [heq3] at hp
        have hsz := hp.1
        rw [registerNode_size] at hsz
        have hsz2 : st4.size = st.size := hsz
        simp only [finishInsert_size, hsz2]

/-- C1 amended: add_node never removes or replaces a prior node with the
same chunk_id; every node id present before remains present after, and
every successful insert increments size by exactly one, so a re-insert of
an existing chunk_id grows the index and leaves duplicates. -/
theorem add_node_accumulates_duplicates (st : HNSWIndexS) (v : List Flt)
    (chunk doc : String) (meta : Metadata) (level : Nat) :
    (∀ j, (nlookup st.nodes j).isSome = true →
      (nlookup (add_node st v chunk doc meta level).2.nodes j).isSome = true) ∧
    (∀ nid, (add_node st v chunk doc meta level).1 = .ok nid →
      (add_node st v chunk doc meta level).2.size = st.size + 1) :=
  ⟨fun j hj => add_node_preserves_lookup st v chunk doc meta level j hj,
   fun nid h => add_node_size_succ st v chunk doc meta level nid h⟩

/-- A fresh index and two inserts of the same chunk id c1 with distinct
vectors, the re-insert scenario of C1. -/
def idx0 : HNSWIndexS := mkIndex "org1" 16 200

/-- First insert of chunk c1. -/
def dupIns1 := add_node idx0 [1, 0] "c1" "d1" [] 0

/-- State after the first insert of c1. -/
def dupSt1 := dupIns1.2

/-- Re-insert of chunk c1 with a new vector. -/
def dupIns2 := add_node dupSt1 [0, 1] "c1" "d1" [] 0

/-- State after the re-insert of c1. -/
def dupSt2 := dupIns2.2

/-- C1 counterexample: re-inserting chunk_id c1 does not remove the prior
node; two nodes now carry chunk_id c1 and size grew from 1 to 2 instead
of staying unchanged. -/
theorem add_node_reinsert_keeps_both :
    dupSt1.size = 1 ∧ dupSt2.size = 2 ∧
    (dupSt2.nodes.filter (fun kv => kv.2.chunk_id = "c1")).length = 2 := by
  decide

/-- C1 amended witness: the second insert of c1 on the concrete index. -/
theorem add_node_accumulates_duplicates_witness :
    (nlookup dupSt1.nodes 0).isSome = true ∧
    (nlookup (add_node dupSt1 [0, 1] "c1" "d1" [] 0).2.nodes 0).isSome = true ∧
    (add_node dupSt1 [0, 1] "c1" "d1" [] 0).1 = .ok 1 ∧
    (add_node dupSt1 [0, 1] "c1" "d1" [] 0).2.size = dupSt1.size + 1 :=
  ⟨by decide,
   (add_node_accumulates_duplicates dupSt1 [0, 1] "c1" "d1" [] 0).1 0 (by decide),
   by decide,
   (add_node_accumulates_duplicates dupSt1 [0, 1] "c1" "d1" [] 0).2 1 (by decide)⟩

/-- Insert of node a at level 0 on the fresh index. -/
def insA := add_node idx0 [1, 0] "a" "d1" [] 0

/-- State with the single node a. -/
def stA := insA.2

/-- Insert of node b at drawn level 1, strictly above the current
max_layer 0. -/
def insB := add_node stA [0, 1] "b" "d1" [] 1

/-- State after the level-1 insert. -/
def stB := insB.2

/-- C4: inserting at a level strictly above max_layer raises the index
max_layer but never promotes the new node to entry point (the early
max_layer raise at lines 230-231 makes the promotion at lines 304-307
unreachable), so the entry point invariant
entry_point.max_layer = index.max_layer is violated. -/
theorem entry_point_never_promoted :
    insB.1 = .ok 1 ∧ stB.max_layer = 1 ∧ stB.entry_point = some 0 ∧
    (nlookup stB.nodes 0).map (fun n => n.max_layer) = some 0 ∧
    (nlookup stB.nodes 1).map (fun n => n.max_layer) = some 1 := by
  decide

/-- np.dot of 1-D arrays of different lengths raises. -/
theorem dotQ_none : ∀ (a b : List Flt), ¬(a.length = b.length) → dotQ a b = none := by
  intro a
  induction a with
  | nil =>
    intro b h
    cases b with
    | nil => exact absurd rfl h
    | cons x xs => rfl
  | cons x xs ih =>
    intro b h
    cases b with
    | nil => rfl
    | cons y ys =>
      have : ¬(xs.length = ys.length) := by
        intro he; exact h (by simp [he])
      simp [dotQ, ih ys this]

/-- Distance to a vector of a different dimension fails. -/
theorem distance_to_vector_none (n : HNSWNodeS) (q : List Flt)
    (h : ¬(n.vector.length = q.length)) : distance_to_vector n q = none := by
  unfold distance_to_vector
  rw [dotQ_none _ _ h]

/-- Seeding from an entry point whose vector dimension disagrees with the
query raises the numpy error. -/
theorem slSeed_error (st : HNSWIndexS) (q : List Flt) (ep : Nat) (en : HNSWNodeS)
    (s : SLState) (hen : nlookup st.nodes ep = some en)
    (hd : distance_to_vector en q = none) :
    slSeed st q [ep] s = .error dimMsg := by
  simp only [slSeed, hen, hd]

/-- The same failure propagates out of _search_layer. -/
theorem search_layer_error (st : HNSWIndexS) (q : List Flt) (ep : Nat) (en : HNSWNodeS)
    (nC : Int) (lc : Nat) (hen : nlookup st.nodes ep = some en)
    (hd : distance_to_vector en q = none) :
    search_layer st q [ep] nC lc = .error dimMsg := by
  unfold search_layer
  rw [slSeed_error st q ep en _ hen hd]

/-- The layer list down to zero always starts with its top layer. -/
theorem rangeDown_zero_cons (hi : Nat) : ∃ tl, rangeDown hi 0 = hi :: tl := by
  unfold rangeDown
  rw [Nat.sub_zero, List.range_succ_eq_map]
  exact ⟨_, rfl⟩

/-- C7 amended: on a non-empty index, inserting a vector whose dimension
disagrees with the entry point's vector fails with the shape error from
the distance computation, but the index is not left unchanged: the new
node is already registered in the node dictionary when the error is
raised, and only size is left untouched. -/
theorem add_node_dim_mismatch (st : HNSWIndexS) (v : List Flt) (chunk doc : String)
    (meta : Metadata) (level : Nat) (ep : Nat) (en : HNSWNodeS)
    (hep : st.entry_point = some ep)
    (hen : nlookup st.nodes ep = some en)
    (hfresh : nlookup st.nodes st.next_id = none)
    (hdim : ¬(en.vector.length = v.length)) :
    (add_node st v chunk doc meta level).1 = .error dimMsg ∧
    (nlookup (add_node st v chunk doc meta level).2.nodes st.next_id).isSome = true ∧
    (add_node st v chunk doc meta level).2.size = st.size := by
  have hepne : ¬(st.next_id = ep) := by
    intro h
    rw [← h, hfresh] at hen
    cases hen
  have henR : nlookup (registerNode st v chunk doc meta level).nodes ep = some en := by
    rw [registerNode_nodes, nlookup_nupdate, if_neg hepne]
    exact hen
  have hdist : distance_to_vector en v = none := distance_to_vector_none en v hdim
  have hsl : ∀ (nC : Int) (lc : Nat),
      search_layer (registerNode st v chunk doc meta level) v [ep] nC lc = .error dimMsg :=
    fun nC lc => search_layer_error _ v ep en nC lc henR hdist
  have hepR : (registerNode st v chunk doc meta level).entry_point = some ep := by
    unfold registerNode
    rw [bumpMaxLayer_entry_point]
    exact hep
  have hnodeR : (nlookup (registerNode st v chunk doc meta level).nodes st.next_id).isSome = true := by
    rw [registerNode_nodes, nlookup_nupdate, if_pos rfl]
    rfl
  have hszR : (registerNode st v chunk doc meta level).size = st.size :=
    registerNode_size st v chunk doc meta level
  unfold add_node
  rw [hepR]
  cases hrd : rangeDown (registerNode st v chunk doc meta level).max_layer (level + 1) with
  | nil =>
    obtain ⟨tl, htl⟩ := rangeDown_zero_cons (min level (registerNode st v chunk doc meta level).max_layer)
    rw [htl]
    simp only [descend, connectLayers, hsl]
    exact ⟨trivial, hnodeR, hszR⟩
  | cons lc0 tl0 =>
    simp only [descend, hsl]
    exact ⟨trivial, hnodeR, hszR⟩

/-- C7 counterexample: inserting a 3-dimensional vector into the
one-node 2-dimensional index raises, yet the node dictionary has grown
from one to two entries, so the index is not left unchanged. -/
theorem add_node_dim_mismatch_mutates :
    (add_node stA [1, 0, 0] "c" "d1" [] 0).1 = .error dimMsg ∧
    (add_node stA [1, 0, 0] "c" "d1" [] 0).2.nodes.length = 2 ∧
    stA.nodes.length = 1 := by
  decide

/-- C7 amended witness: the concrete mismatched insert on stA. -/
theorem add_node_dim_mismatch_witness :
    stA.entry_point = some 0 ∧
    nlookup stA.nodes 0 = some (mkNode [1, 0] "a" "d1" [] 0) ∧
    nlookup stA.nodes stA.next_id = none ∧
    ((add_node stA [1, 0, 0] "c" "d1" [] 0).1 = .error dimMsg ∧
      (nlookup (add_node stA [1, 0, 0] "c" "d1" [] 0).2.nodes stA.next_id).isSome = true ∧
      (add_node stA [1, 0, 0] "c" "d1" [] 0).2.size = stA.size) :=
  ⟨by decide, by decide, by decide,
    add_node_dim_mismatch stA [1, 0, 0] "c" "d1" [] 0 0 (mkNode [1, 0] "a" "d1" [] 0)
      (by decide) (by decide) (by decide) (by decide)⟩

/-- The greedy loop never grows the selection past M. -/
theorem snhLoop_length_le (st : HNSWIndexS) (M : Nat) :
    ∀ (fuel : Nat) (sel : List Nat) (rem : List (Flt × Nat)) (sel2 : List Nat)
      (rem2 : List (Flt × Nat)), sel.length ≤ M →
      snhLoop st M fuel sel rem = .ok (sel2, rem2) → sel2.length ≤ M := by
  intro fuel
  induction fuel with
  | zero =>
    intro sel rem sel2 rem2 hle h
    simp only [snhLoop] at h
    cases h
    exact hle
  | succ fuel ih =>
    intro sel rem sel2 rem2 hle h
    simp only [snhLoop] at h
    split at h
    · cases h; exact hle
    next hlt =>
      split at h
      · cases h; exact hle
      next d bid rest =>
        have hlen : sel.length + 1 ≤ M := by omega
        split at h
        · cases h
          simpa using hlen
        · split at h
          · cases h
          next bestNode hbn =>
            split at h
            · cases h
            next nr hnr =>
              exact ih (sel ++ [bid]) nr sel2 rem2 (by simpa using hlen) h

/-- C8 amended: the neighbor selection heuristic returns at most M
neighbors; since the diversity-pruned candidates are discarded (the
keep_pruned parameter is never read and the fill loop can only drain the
already-filtered remainder), exactly M is not guaranteed. -/
theorem select_neighbors_at_most_M (st : HNSWIndexS) (cands : List (Flt × Nat))
    (M : Nat) (ec kp : Bool) (r : List Nat)
    (h : select_neighbors_heuristic st cands M ec kp = .ok r) : r.length ≤ M := by
  unfold select_neighbors_heuristic at h
  split at h
  next hle =>
    cases h
    simpa using hle
  next hgt =>
    split at h
    · cases h
      simpa using List.length_take_le M (sortTup cands)
    · split at h
      · cases h
      next selected remaining hloop =>
        cases h
        have hsel : selected.length ≤ M :=
          snhLoop_length_le st M (sortTup cands).length [] (sortTup cands)
            selected remaining (by simp) hloop
        have htk : ((remaining.take (M - selected.length)).map (fun x => x.2)).length
            ≤ M - selected.length := by
          simpa using List.length_take_le (M - selected.length) remaining
        simp only [List.length_append]
        omega

/-- A node sharing the vector [1,0], used to build the diversity-pruning
counterexample. -/
def triNode (cid : String) : HNSWNodeS := mkNode [1, 0] cid "d" [] 0

/-- An index whose three nodes all share one vector, so every pairwise
distance is zero and the diversity rule prunes everything after the
first pick. -/
def triState : HNSWIndexS :=
  { mkIndex "org" 2 200 with
    nodes := [(0, triNode "x"), (1, triNode "y"), (2, triNode "z")],
    size := 3, next_id := 3 }

/-- C8 counterexample: three candidates, all present in the index, with
M = 2: after selecting the closest, the diversity rule prunes both
remaining candidates (their distance to the selected node is 0), the
discarded candidates are never refilled, and only one neighbor is
returned instead of exactly M = 2. -/
theorem select_neighbors_returns_fewer :
    select_neighbors_heuristic triState [(1, 0), (2, 1), (3, 2)] 2 = .ok [0] ∧
    2 < ([(1, 0), (2, 1), (3, 2)] : List (Flt × Nat)).length ∧
    (∀ i ∈ [0, 1, 2], (nlookup triState.nodes i).isSome = true) := by
  decide

/-- C8 amended witness: the bound applied to the concrete selection with
M = 1. -/
theorem select_neighbors_at_most_M_witness :
    ([0] : List Nat).length ≤ 1 :=
  select_neighbors_at_most_M triState [(1, 0), (2, 1)] 1 true true [0] (by decide)

/-- The Python slice with a nonnegative bound is a plain prefix. -/
theorem takePy_nonneg {α : Type} (k : Int) (hk : 0 ≤ k) (l : List α) :
    takePy k l = l.take k.toNat := by
  unfold takePy
  rw [if_pos hk]

/-- Every surviving entry of the post-traversal filter step is a live
node from the map satisfying the filter. -/
theorem searchFilter_mem (st : HNSWIndexS) (f : Option Filters)
    (candidates : List (Flt × Nat)) (r : Flt × Nat × HNSWNodeS)
    (h : r ∈ searchFilter st f candidates) :
    r.2.2.is_deleted = false ∧
    (filtersTruthy f = true → satisfiesFilters r.2.2.metadata f = true) ∧
    nlookup st.nodes r.2.1 = some r.2.2 := by
  unfold searchFilter at h
  rw [List.mem_filterMap] at h
  obtain ⟨dc, _, hsome⟩ := h
  split at hsome
  · cases hsome
  next node hnode =>
    split at hsome
    · cases hsome
    next hdel =>
      split at hsome
      · cases hsome
      next hcond =>
        cases hsome
        refine ⟨?_, ?_, ?_⟩
        · simpa using hdel
        · intro ht
          by_contra hns
          exact hcond ⟨ht, by
            cases hsf : satisfiesFilters node.metadata f
            · rfl
            · exact absurd hsf hns⟩
        · exact hnode

/-- mark_deleted_by_chunk_id marks exactly one node: the state maps some
id i, whose node carried the chunk id, to its deleted copy, and every
other id to what it held before. -/
theorem markDeletedAux_spec :
    ∀ (ns : List (Nat × HNSWNodeS)) (c : String) (ns2 : List (Nat × HNSWNodeS)),
      (ns.map Prod.fst).Nodup → markDeletedAux ns c = some ns2 →
      ∃ i ni, nlookup ns i = some ni ∧ ni.chunk_id = c ∧
        ∀ j, nlookup ns2 j =
          if j = i then some { ni with is_deleted := true } else nlookup ns j := by
  intro ns
  induction ns with
  | nil => intro c ns2 hnd h; cases h
  | cons kv rest ih =>
    obtain ⟨k, n⟩ := kv
    intro c ns2 hnd h
    simp only [markDeletedAux] at h
    simp only [List.map_cons, List.nodup_cons] at hnd
    obtain ⟨hk, hndr⟩ := hnd
    split at h
    next hchunk =>
      cases h
      refine ⟨k, n, by simp [nlookup], hchunk, ?_⟩
      intro j
      by_cases hj : j = k
      · subst hj; simp [nlookup]
      · simp [nlookup, Ne.symm hj, hj]
    next hchunk =>
      rw [Option.map_eq_some'] at h
      obtain ⟨rest2, hrest2, hcons⟩ := h
      obtain ⟨i, ni, hlooki, hchunki, hall⟩ := ih c rest2 hndr hrest2
      have hik : ¬(i = k) := by
        intro he
        subst he
        exact hk ((nlookup_isSome_iff rest i).1 (by rw [hlooki]; rfl))
      have hki : ¬(k = i) := fun he => hik he.symm
      refine ⟨i, ni, ?_, hchunki, ?_⟩
      · simp only [nlookup, if_neg hki]
        exact hlooki
      · intro j
        subst hcons
        by_cases hj : j = k
        · subst hj
          simp [nlookup, hki]
        · have hkj : ¬(k = j) := fun he => hj he.symm
          simp only [nlookup, if_neg hkj]
          exact hall j

/-- C3: a search on a non-empty index only returns results that point at
live (non-deleted) nodes of the map satisfying the supplied filter, and
at most k of them; and once mark_deleted_by_chunk_id(c) succeeded on an
index whose node ids are unique and where at most one node carries chunk
c, no search on the resulting state returns a node for chunk c. -/
theorem search_results (st : HNSWIndexS) (q : List Flt) (k : Int) (ef : Option Int)
    (f : Option Filters) (res : List (Flt × Nat × HNSWNodeS))
    (hk : 0 ≤ k) (hres : search st q k ef f = .ok res) :
    (∀ r ∈ res, r.2.2.is_deleted = false ∧
        (filtersTruthy f = true → satisfiesFilters r.2.2.metadata f = true) ∧
        nlookup st.nodes r.2.1 = some r.2.2) ∧
    res.length ≤ k.toNat ∧
    (∀ st0 c, mark_deleted_by_chunk_id st0 c = (true, st) →
      (st0.nodes.map Prod.fst).Nodup →
      (∀ i j2 ni nj, nlookup st0.nodes i = some ni → nlookup st0.nodes j2 = some nj →
        ni.chunk_id = c → nj.chunk_id = c → i = j2) →
      ∀ r ∈ res, ¬(r.2.2.chunk_id = c)) := by
  have hmain : (∀ r ∈ res, r.2.2.is_deleted = false ∧
      (filtersTruthy f = true → satisfiesFilters r.2.2.metadata f = true) ∧
      nlookup st.nodes r.2.1 = some r.2.2) ∧ res.length ≤ k.toNat := by
    unfold search at hres
    split at hres
    · cases hres
      exact ⟨fun r hr => absurd hr (List.not_mem_nil r), by simp⟩
    · split at hres
      · cases hres
        exact ⟨fun r hr => absurd hr (List.not_mem_nil r), by simp⟩
      next ep hep =>
        split at hres
        · cases hres
        next cur hcur =>
          split at hres
          · cases hres
          next candidates hcand =>
            cases hres
            rw [takePy_nonneg k hk]
            constructor
            · intro r hr
              exact searchFilter_mem st f candidates r (List.take_subset _ _ hr)
            · exact List.length_take_le _ _
  refine ⟨hmain.1, hmain.2, ?_⟩
  intro st0 c hmark hnd huniq r hr hc
  obtain ⟨hdel, _, hlook⟩ := hmain.1 r hr
  unfold mark_deleted_by_chunk_id at hmark
  split at hmark
  next ns hns =>
    have hst : st = { st0 with nodes := ns } := by
      cases hmark
      rfl
    subst hst
    obtain ⟨i, ni, hlooki, hchunki, hall⟩ := markDeletedAux_spec st0.nodes c ns hnd hns
    have hlook2 : nlookup ns r.2.1 = some r.2.2 := hlook
    rw [hall r.2.1] at hlook2
    by_cases hri : r.2.1 = i
    · rw [if_pos hri] at hlook2
      injection hlook2 with h222
      rw [← h222] at hdel
      simp at hdel
    · rw [if_neg hri] at hlook2
      exact hri (huniq r.2.1 i r.2.2 ni hlook2 hlooki hc hchunki)
  next hnone =>
    cases hmark

/-- The state stA with its single node a soft-deleted. -/
def stDel := (mark_deleted_by_chunk_id stA "a").2

/-- C3 witness: concrete instantiation - on stA itself the single live
node a is returned (not deleted, in the map), and on stDel the same
search returns nothing. -/
theorem search_results_witness :
    ((∀ r ∈ ([((0 : Flt), 0, mkNode [1, 0] "a" "d1" [] 0)] : List (Flt × Nat × HNSWNodeS)),
        r.2.2.is_deleted = false ∧
        (filtersTruthy none = true → satisfiesFilters r.2.2.metadata none = true) ∧
        nlookup stA.nodes r.2.1 = some r.2.2) ∧
      ([((0 : Flt), 0, mkNode [1, 0] "a" "d1" [] 0)] : List (Flt × Nat × HNSWNodeS)).length
        ≤ (1 : Int).toNat ∧
      (∀ st0 c, mark_deleted_by_chunk_id st0 c = (true, stA) →
        (st0.nodes.map Prod.fst).Nodup →
        (∀ i j2 ni nj, nlookup st0.nodes i = some ni → nlookup st0.nodes j2 = some nj →
          ni.chunk_id = c → nj.chunk_id = c → i = j2) →
        ∀ r ∈ ([((0 : Flt), 0, mkNode [1, 0] "a" "d1" [] 0)] : List (Flt × Nat × HNSWNodeS)),
          ¬(r.2.2.chunk_id = c))) ∧
    ((∀ r ∈ ([] : List (Flt × Nat × HNSWNodeS)), r.2.2.is_deleted = false ∧
        (filtersTruthy none = true → satisfiesFilters r.2.2.metadata none = true) ∧
        nlookup stDel.nodes r.2.1 = some r.2.2) ∧
      ([] : List (Flt × Nat × HNSWNodeS)).length ≤ (1 : Int).toNat ∧
      (∀ st0 c, mark_deleted_by_chunk_id st0 c = (true, stDel) →
        (st0.nodes.map Prod.fst).Nodup →
        (∀ i j2 ni nj, nlookup st0.nodes i = some ni → nlookup st0.nodes j2 = some nj →
          ni.chunk_id = c → nj.chunk_id = c → i = j2) →
        ∀ r ∈ ([] : List (Flt × Nat × HNSWNodeS)), ¬(r.2.2.chunk_id = c))) :=
  ⟨search_results stA [1, 0] 1 none none _ (by decide) (by decide),
   search_results stDel [1, 0] 1 none none _ (by decide) (by decide)⟩

/-- Word characters of the regex token class used by count_words and the
complexity score. -/
def isWordChar (c : Char) : Bool := c.isAlphanum || c = '_'

/-- Whitespace for the Python str.strip model. -/
def isSpaceChar (c : Char) : Bool :=
  c = ' ' || c = Char.ofNat 9 || c = Char.ofNat 10 || c = Char.ofNat 13 || c = Char.ofNat 12 || c = Char.ofNat 11

/-- Python str.strip: drop leading and trailing whitespace. -/
def pyStrip (s : String) : String :=
  String.mk (((s.data.dropWhile isSpaceChar).reverse.dropWhile isSpaceChar).reverse)

/-- Python str.lower. -/
def lowerStr (s : String) : String := String.mk (s.data.map Char.toLower)

/-- Maximal runs of word characters: re.findall of word tokens. -/
def wordsGo : List Char → List Char → List String
  | [], acc => if acc.isEmpty then [] else [String.mk acc.reverse]
  | c :: cs, acc =>
      if isWordChar c then wordsGo cs (c :: acc)
      else if acc.isEmpty then wordsGo cs []
      else String.mk acc.reverse :: wordsGo cs []

/-- The word list of a text. -/
def findWords (s : String) : List String := wordsGo s.data []

/-- ChunkingService.count_words: the number of word tokens. -/
def count_words (s : String) : Nat := (findWords s).length

/-- The complex punctuation class ;:(){}[] of the complexity score. -/
def isComplexPunct (c : Char) : Bool :=
  c = ';' || c = ':' || c = '(' || c = ')' || c = Char.ofNat 123 || c = Char.ofNat 125 ||
  c = '[' || c = ']'

/-- List-of-strings concatenation with a separator, Python sep.join. -/
def joinSepGo (sep : List Char) : List String → List Char
  | [] => []
  | [s] => s.data
  | s :: rest => s.data ++ sep ++ joinSepGo sep rest

/-- Python " ".join. -/
def joinSp (l : List String) : String := String.mk (joinSepGo [' '] l)

/-- Python "".join. -/
def concatStr (l : List String) : String := String.mk (joinSepGo [] l)

/-- A float from a count. -/
def natF (n : Nat) : Flt := ⟨(n : Int), 1⟩

/-- ChunkingService.calculate_text_complexity (chunking_service.py lines
55-93): the weighted score over lexical density, sentence complexity and
punctuation complexity. The sentence segmentation is the external nltk
sent_tokenize, passed as the function tok; the float literals 0.4 and
0.2 are idealized as the exact rationals they denote. The try/except
cannot fire in the model (all operations are total). -/
def calculate_text_complexity (tok : String → List String) (text : String) : Flt :=
  if pyStrip text = "" then 0
  else
    if (findWords (lowerStr text)).isEmpty || (tok text).isEmpty then 0
    else
      fmin 1
        ((natF (findWords (lowerStr text)).dedup.length / natF (findWords (lowerStr text)).length)
            * (⟨2, 5⟩ : Flt)
          + fmin 1 ((natF (findWords (lowerStr text)).length / natF (tok text).length) / natF 20)
            * (⟨2, 5⟩ : Flt)
          + fmin 1 ((natF (text.data.filter isComplexPunct).length
              / natF (findWords (lowerStr text)).length) * natF 100)
            * (⟨1, 5⟩ : Flt))

/-- ChunkingService.get_target_chunk_size: 300 words for complexity at
least 0.7, 500 for at least 0.4, else 700. -/
def get_target_chunk_size (c : Flt) : Nat :=
  if Flt.le ⟨7, 10⟩ c then 300 else if Flt.le ⟨2, 5⟩ c then 500 else 700

/-- ChunkingService.split_into_sentences: tokenize, strip, drop empty.
The except branch (a plain split on periods) is unreachable in the
model. -/
def split_into_sentences (tok : String → List String) (text : String) : List String :=
  ((tok text).map pyStrip).filter (fun s => !(s = ""))

/-- The greedy sentence packing of _fallback_size_based_chunking: close
the current bucket when the next sentence would exceed the target and
the bucket is already at half the target (cwc >= target * 0.5, exact in
floats, is 2 * cwc >= target). -/
def packGo (target : Nat) : List String → List String → Nat → List String
  | [], current, _ => if current.isEmpty then [] else [pyStrip (joinSp current)]
  | s :: rest, current, cwc =>
      if target < cwc + count_words s ∧ ¬current.isEmpty ∧ target ≤ 2 * cwc then
        pyStrip (joinSp current) :: packGo target rest [s] (count_words s)
      else packGo target rest (current ++ [s]) (cwc + count_words s)

/-- ChunkingService._fallback_size_based_chunking (chunking_service.py
lines 257-298): pure size-based packing; a single oversized sentence is
emitted as one oversized chunk, and no 2000-word cap is enforced here. -/
def fallback_size_based_chunking (tok : String → List String) (text : String) : List String :=
  if (split_into_sentences tok text).isEmpty then [text]
  else
    if (packGo (get_target_chunk_size (calculate_text_complexity tok text))
        (split_into_sentences tok text) [] 0).isEmpty then [text]
    else
      packGo (get_target_chunk_size (calculate_text_complexity tok text))
        (split_into_sentences tok text) [] 0

/-- Digit run value. -/
def digitsGo : List Char → Nat → Option Nat
  | [], acc => some acc
  | c :: r, acc => if c.isDigit then digitsGo r (acc * 10 + (c.toNat - 48)) else none

/-- Python int(s) on a stripped token: optional sign then digits. -/
def parseIntPy (s : String) : Option Int :=
  match s.data with
  | [] => none
  | c :: rest =>
      if c = '-' then
        match rest with
        | [] => none
        | _ => (digitsGo rest 0).map (fun n => -(n : Int))
      else if c = '+' then
        match rest with
        | [] => none
        | _ => (digitsGo rest 0).map (fun n => (n : Int))
      else (digitsGo (c :: rest) 0).map (fun n => (n : Int))

/-- Whether sub occurs in s. -/
def listHasSub (s sub : List Char) : Bool :=
  if sub.isPrefixOf s then true
  else
    match s with
    | [] => false
    | _ :: r => listHasSub r sub

/-- The suffix after the first occurrence of sub. -/
def afterFirstSub : List Char → List Char → Option (List Char)
  | s, sub =>
      if sub.isPrefixOf s then some (s.drop sub.length)
      else
        match s with
        | [] => none
        | _ :: r => afterFirstSub r sub

/-- The prefix up to the first occurrence of sub (everything when sub is
absent); with afterFirstSub this is Python split(sub)[1]. -/
def upToSub : List Char → List Char → List Char
  | s, sub =>
      if sub.isPrefixOf s then []
      else
        match s with
        | [] => []
        | c :: r => c :: upToSub r sub

/-- Split on commas, Python split(","). -/
def commaSplit : List Char → List (List Char)
  | [] => [[]]
  | c :: r =>
      if c = ',' then [] :: commaSplit r
      else
        match commaSplit r with
        | [] => [[c]]
        | p :: ps => (c :: p) :: ps

/-- Parsing of the LLM split response (chunking_service.py lines
197-208): the text between the first split_after: marker and the next,
stripped; none means no splits; a comma list of ints otherwise, and any
int() failure discards all split points. -/
def parseSplitAfter (llm : String) : List Int :=
  if listHasSub llm.data "split_after:".data then
    if lowerStr (pyStrip (String.mk (upToSub
        ((afterFirstSub llm.data "split_after:".data).getD []) "split_after:".data))) = "none"
    then []
    else
      if ((commaSplit (pyStrip (String.mk (upToSub
            ((afterFirstSub llm.data "split_after:".data).getD []) "split_after:".data))).data).map
          (fun p => pyStrip (String.mk p)) |>.filter (fun x => !(x = "")) |>.all
          (fun x => (parseIntPy x).isSome)) then
        ((commaSplit (pyStrip (String.mk (upToSub
            ((afterFirstSub llm.data "split_after:".data).getD []) "split_after:".data))).data).map
          (fun p => pyStrip (String.mk p)) |>.filter (fun x => !(x = ""))).filterMap parseIntPy
      else []
  else []

/-- Split a character list at the first occurrence of sub, the lazy
match up to the backreferenced end marker. -/
def splitAtSub : List Char → List Char → Option (List Char × List Char)
  | s, sub =>
      if sub.isPrefixOf s then some ([], s.drop sub.length)
      else
        match s with
        | [] => none
        | c :: r => (splitAtSub r sub).map (fun pr => (c :: pr.1, pr.2))

/-- The chunk-number digit value. -/
def digitsToNat (ds : List Char) : Nat := ds.foldl (fun a c => a * 10 + (c.toNat - 48)) 0

/-- One attempted match of the chunk marker pattern at the head of s:
start marker, digits, optional pipe, closing angle, lazily up to the end
marker carrying the same digits. -/
def tryChunkAt (s : List Char) : Option (Nat × String × List Char) :=
  match (s.drop "<|start_chunk_".data.length).takeWhile Char.isDigit with
  | [] => none
  | ds =>
      match
        (if ((s.drop "<|start_chunk_".data.length).drop ds.length).head? = some '|' then
          ((s.drop "<|start_chunk_".data.length).drop ds.length).drop 1
        else (s.drop "<|start_chunk_".data.length).drop ds.length) with
      | '>' :: body0 =>
          match splitAtSub body0 ("<|end_chunk_" ++ String.mk ds ++ "|>").data with
          | none => none
          | some (body, after) => some (digitsToNat ds, String.mk body, after)
      | _ => none

/-- Scan for every non-overlapping chunk marker match, left to right:
re.findall of the pattern of chunking_service.py line 212. -/
def findChunksGo : Nat → List Char → List (Nat × String)
  | 0, _ => []
  | fuel + 1, s =>
      if "<|start_chunk_".data.isPrefixOf s then
        match tryChunkAt s with
        | some (cid, body, rest) => (cid, body) :: findChunksGo fuel rest
        | none =>
            match s with
            | [] => []
            | _ :: r => findChunksGo fuel r
      else
        match s with
        | [] => []
        | _ :: r => findChunksGo fuel r

/-- The (chunk number, chunk text) list extracted from the marked text. -/
def findChunks (chunked : String) : List (Nat × String) :=
  findChunksGo chunked.data.length chunked.data

/-- Section assembly between suggested split points (chunking_service.py
lines 226-237). -/
def sectionsGo (split_after : List Int) : List (Nat × String) → List String → List String
  | [], current => if current.isEmpty then [] else [pyStrip (concatStr current)]
  | (cid, txt) :: rest, current =>
      if split_after.contains ((cid : Nat) : Int) then
        pyStrip (concatStr (current ++ [txt])) :: sectionsGo split_after rest []
      else sectionsGo split_after rest (current ++ [txt])

/-- The assembled sections of the main path. -/
def sectionsOf (chunked llm : String) : List String :=
  sectionsGo (parseSplitAfter llm) (findChunks chunked) []

/-- ChunkingService.split_text_by_llm_suggestions (chunking_service.py
lines 185-255): parse the split suggestions, extract the delimited
chunks, fall back to pure size-based chunking when no chunks are
delimited, no splits were suggested, or any assembled section exceeds
2000 words; otherwise return the assembled sections. -/
def split_text_by_llm_suggestions (tok : String → List String) (chunked llm : String) :
    List String :=
  if (findChunks chunked).isEmpty then fallback_size_based_chunking tok chunked
  else if (parseSplitAfter llm).isEmpty then
    fallback_size_based_chunking tok (concatStr ((findChunks chunked).map (fun kv => pyStrip kv.2)))
  else if (sectionsOf chunked llm).any (fun sec => 2000 < count_words sec) then
    fallback_size_based_chunking tok (concatStr ((findChunks chunked).map (fun kv => pyStrip kv.2)))
  else sectionsOf chunked llm

/-- C9 amended: every chunk of the main (LLM sections) path of
split_text_by_llm_suggestions contains at most 2000 words, because that
path checks the bound; every other outcome is the output of the pure
size-based fallback, which enforces no word bound at all. -/
theorem chunking_bound_or_fallback (tok : String → List String) (chunked llm : String) :
    (∀ c ∈ split_text_by_llm_suggestions tok chunked llm, count_words c ≤ 2000) ∨
    (∃ t, split_text_by_llm_suggestions tok chunked llm = fallback_size_based_chunking tok t) := by
  unfold split_text_by_llm_suggestions
  split
  · exact Or.inr ⟨chunked, rfl⟩
  · split
    · exact Or.inr ⟨_, rfl⟩
    · split
      · exact Or.inr ⟨_, rfl⟩
      next hno =>
        left
        intro c hc
        by_contra hgt
        exact hno (List.any_eq_true.2 ⟨c, hc, decide_eq_true (by omega)⟩)

/-- The sentence segmentation of a document that is one long sentence:
what nltk sent_tokenize returns when the text has no sentence-ending
punctuation. -/
def oneSent : String → List String := fun t => [t]

/-- n+1 occurrences of the word a separated by single spaces. -/
def aSpaced : Nat → List Char
  | 0 => ['a']
  | n + 1 => 'a' :: ' ' :: aSpaced n

/-- A single 2001-word sentence. -/
def bigText : String := String.mk (aSpaced 2000)

/-- Tokenizing the spaced text yields one word per a. -/
theorem wordsGo_aSpaced (n : Nat) : wordsGo (aSpaced n) [] = List.replicate (n + 1) "a" := by
  induction n with
  | zero => rfl
  | succ n ih =>
    have h1 : wordsGo (aSpaced (n + 1)) [] = "a" :: wordsGo (aSpaced n) [] := rfl
    rw [h1, ih]
    rfl

/-- The spaced text has 2001 words. -/
theorem count_words_bigText : count_words bigText = 2001 := by
  show (wordsGo (aSpaced 2000) []).length = 2001
  rw [wordsGo_aSpaced, List.length_replicate]

/-- The spaced text starts with a word character. -/
theorem aSpaced_head (n : Nat) : (aSpaced n).head? = some 'a' := by
  cases n <;> rfl

/-- The spaced text ends with a word character. -/
theorem aSpaced_getLast (n : Nat) : (aSpaced n).getLast? = some 'a' := by
  induction n with
  | zero => rfl
  | succ n ih =>
    show ('a' :: ' ' :: aSpaced n).getLast? = some 'a'
    rw [List.getLast?_cons_cons]
    cases n with
    | zero => rfl
    | succ m =>
      show (' ' :: 'a' :: ' ' :: aSpaced m).getLast? = some 'a'
      rw [List.getLast?_cons_cons]
      exact ih

/-- dropWhile does nothing when the head fails the test. -/
theorem dropWhile_head_not {p : Char → Bool} (l : List Char) (c : Char)
    (hh : l.head? = some c) (hp : p c = false) : l.dropWhile p = l := by
  cases l with
  | nil => cases hh
  | cons x xs =>
    injection hh with hx
    subst hx
    simp [List.dropWhile, hp]

/-- Stripping the spaced text changes nothing: both ends are words. -/
theorem pyStrip_bigText : pyStrip bigText = bigText := by
  unfold pyStrip bigText
  have h1 : (aSpaced 2000).dropWhile isSpaceChar = aSpaced 2000 :=
    dropWhile_head_not _ 'a' (aSpaced_head 2000) rfl
  have h2 : (aSpaced 2000).reverse.head? = some 'a' := by
    rw [List.head?_reverse]
    exact aSpaced_getLast 2000
  have h3 : (aSpaced 2000).reverse.dropWhile isSpaceChar = (aSpaced 2000).reverse :=
    dropWhile_head_not _ 'a' h2 rfl
  rw [show (String.mk (aSpaced 2000)).data = aSpaced 2000 from rfl, h1, h3,
    List.reverse_reverse]

/-- The spaced text is not empty. -/
theorem bigText_ne_empty : ¬(bigText = "") := by
  intro h
  have : aSpaced 2000 = [] := congrArg String.data h
  cases this

/-- No marker scan can match in a text without an opening angle. -/
theorem findChunksGo_no_angle :
    ∀ (fuel : Nat) (l : List Char), (∀ c ∈ l, ¬(c = '<')) → findChunksGo fuel l = [] := by
  intro fuel
  induction fuel with
  | zero => intro l h; rfl
  | succ fuel ih =>
    intro l h
    cases l with
    | nil => rfl
    | cons c r =>
      have hc : ¬(c = '<') := h c (List.mem_cons_self c r)
      have hpre : ("<|start_chunk_".data.isPrefixOf (c :: r)) = false := by
        show (('<' == c) && _) = false
        have : ('<' == c) = false := by
          cases hcc : ('<' == c)
          · rfl
          · exact absurd (beq_iff_eq.1 hcc).symm hc
        rw [this, Bool.false_and]
      simp only [findChunksGo, hpre, Bool.false_eq_true, if_false]
      exact ih r (fun x hx => h x (List.mem_cons_of_mem c hx))

/-- The spaced text contains only words and spaces. -/
theorem aSpaced_no_angle (n : Nat) : ∀ c ∈ aSpaced n, ¬(c = '<') := by
  induction n with
  | zero =>
    intro c hc
    simp only [aSpaced, List.mem_singleton] at hc
    subst hc
    decide
  | succ n ih =>
    intro c hc
    simp only [aSpaced, List.mem_cons] at hc
    rcases hc with h | h | h
    · subst h; decide
    · subst h; decide
    · exact ih c h

/-- The spaced text carries no chunk markers. -/
theorem findChunks_bigText : findChunks bigText = [] :=
  findChunksGo_no_angle _ _ (aSpaced_no_angle 2000)

/-- The size-based fallback returns a single-sentence document as one
chunk, whatever its word count. -/
theorem fallback_single (tok : String → List String) (t : String)
    (h : tok t = [t]) (hs : pyStrip t = t) (hne : ¬(t = "")) :
    fallback_size_based_chunking tok t = [t] := by
  have hsen : split_into_sentences tok t = [t] := by
    unfold split_into_sentences
    rw [h]
    simp [hs, hne]
  have hpack : ∀ T : Nat, packGo T [t] [] 0 = [t] := by
    intro T
    show (if T < 0 + count_words t ∧ ¬(List.isEmpty ([] : List String)) ∧ T ≤ 2 * 0 then
        pyStrip (joinSp []) :: packGo T [] [t] (count_words t)
      else packGo T [] ([] ++ [t]) (0 + count_words t)) = [t]
    rw [if_neg (fun hco => hco.2.1 rfl)]
    show (if List.isEmpty [t] then [] else [pyStrip (joinSp [t])]) = [t]
    have hj : joinSp [t] = t := rfl
    rw [hj, hs]
    rfl
  unfold fallback_size_based_chunking
  rw [hsen, hpack]
  simp

/-- C9 counterexample: a 2001-word document that is a single sentence and
the LLM answer split_after: none drive the pipeline into the size-based
fallback, which returns one chunk of 2001 words, exceeding the claimed
2000-word bound. -/
theorem chunking_returns_oversize_chunk :
    split_text_by_llm_suggestions oneSent bigText "split_after: none" = [bigText] ∧
    2000 < count_words bigText := by
  constructor
  · unfold split_text_by_llm_suggestions
    rw [findChunks_bigText]
    simp only [List.isEmpty_nil, if_true]
    exact fallback_single oneSent bigText rfl pyStrip_bigText bigText_ne_empty
  · rw [count_words_bigText]
    norm_num

/-- C9 amended witness: the empty document instantiation. -/
theorem chunking_bound_or_fallback_witness :
    (∀ c ∈ split_text_by_llm_suggestions oneSent "" "", count_words c ≤ 2000) ∨
    (∃ t, split_text_by_llm_suggestions oneSent "" "" =
      fallback_size_based_chunking oneSent t) :=
  chunking_bound_or_fallback oneSent "" ""

end TeamQuery
